import Mathlib

/-!
Verification of the edx-platform fragment: discussion utilities
(`lms/djangoapps/django_comment_client/utils.py`), the SAML backend
(`common/djangoapps/third_party_auth/saml.py`), and the video-pipeline
credentials API (known through `openedx/core/djangoapps/video_pipeline/tests/test_api.py`).

Python dictionaries are embedded as association lists `List (String × α)`:
`dlookup` is `dict.get` / `dict[...]` (first match), `dinsert` is `dict[k] = v`
(overwrite in place, append when fresh), `dappend` is `defaultdict(list)[k].append(v)`.
Python values that can be `None`, booleans or strings are embedded as `PyVal`;
code paths that can raise are embedded in `Except PyError`.
-/

/-- Heterogeneous Python values as they appear in the content/detail dicts:
`None`, booleans and strings. -/
inductive PyVal where
  | none : PyVal
  | bool : Bool → PyVal
  | str : String → PyVal
deriving DecidableEq, Repr

/-- The Python exceptions these code paths can raise. -/
inductive PyError where
  | keyError : String → PyError
  | typeError : PyError
  | attributeError : PyError
deriving DecidableEq, Repr

/-- First-match lookup in an association list: `dict.get(k)` / `k in dict`. -/
def dlookup {α : Type} : List (String × α) → String → Option α
  | [], _ => Option.none
  | (k', v) :: rest, k => if k' = k then some v else dlookup rest k

/-- `dict[k] = v`: overwrite the existing binding in place, append when `k` is fresh. -/
def dinsert {α : Type} : List (String × α) → String → α → List (String × α)
  | [], k, v => [(k, v)]
  | (k', v') :: rest, k, v =>
      if k' = k then (k', v) :: rest else (k', v') :: dinsert rest k v

/-- `defaultdict(list)`: append `v` to the list stored under `k` (empty when absent). -/
def dappend {α : Type} (d : List (String × List α)) (k : String) (v : α) :
    List (String × List α) :=
  dinsert d k (((dlookup d k).getD []) ++ [v])

theorem dlookup_dinsert_self {α : Type} (d : List (String × α)) (k : String) (v : α) :
    dlookup (dinsert d k v) k = some v := by
  induction d with
  | nil => simp [dinsert, dlookup]
  | cons p rest ih =>
      by_cases h : p.1 = k
      · simp [dinsert, dlookup, h]
      · simp [dinsert, dlookup, h, ih]

theorem dlookup_dinsert_ne {α : Type} (d : List (String × α)) (k k' : String) (v : α)
    (h : k ≠ k') : dlookup (dinsert d k v) k' = dlookup d k' := by
  induction d with
  | nil => simp [dinsert, dlookup, h]
  | cons p rest ih =>
      by_cases hp : p.1 = k
      · subst hp
        simp [dinsert, dlookup, h]
      · simp [dinsert, dlookup, hp, ih]

theorem mem_keys_dinsert {α : Type} {k a : String} {v : α} :
    ∀ {d : List (String × α)}, a ∈ (dinsert d k v).map Prod.fst → a ∈ d.map Prod.fst ∨ a = k
  | [], h => by
      simp [dinsert] at h
      exact Or.inr h
  | (k', v') :: rest, h => by
      by_cases hp : k' = k
      · rw [show dinsert ((k', v') :: rest) k v = (k', v) :: rest by simp [dinsert, hp]] at h
        rw [List.map_cons, List.mem_cons] at h ⊢
        exact h.elim (fun h1 => Or.inl (Or.inl h1)) (fun h2 => Or.inl (Or.inr h2))
      · rw [show dinsert ((k', v') :: rest) k v = (k', v') :: dinsert rest k v by
          simp [dinsert, hp]] at h
        rw [List.map_cons, List.mem_cons] at h ⊢
        exact h.elim (fun h1 => Or.inl (Or.inl h1))
          (fun h2 => (mem_keys_dinsert h2).elim (fun x => Or.inl (Or.inr x)) Or.inr)

theorem mem_keys_of_dlookup_eq_some {α : Type} {d : List (String × α)} {k : String} {v : α}
    (h : dlookup d k = some v) : k ∈ d.map Prod.fst := by
  induction d with
  | nil => simp [dlookup] at h
  | cons p rest ih =>
      obtain ⟨k', v'⟩ := p
      by_cases hp : k' = k
      · simp [hp]
      · simp only [dlookup, if_neg hp] at h
        simp [ih h]

theorem dlookup_eq_none_of_not_mem_keys {α : Type} {d : List (String × α)} {k : String}
    (h : k ∉ d.map Prod.fst) : dlookup d k = Option.none := by
  induction d with
  | nil => rfl
  | cons p rest ih =>
      obtain ⟨k', v'⟩ := p
      simp only [List.map_cons, List.mem_cons] at h
      push_neg at h
      simp [dlookup, Ne.symm h.1, ih h.2]

theorem dinsert_map_fst_of_mem {α : Type} {k : String} {v : α} :
    ∀ {d : List (String × α)}, k ∈ d.map Prod.fst → (dinsert d k v).map Prod.fst = d.map Prod.fst
  | [], h => by simp at h
  | (k', v') :: rest, h => by
      by_cases hp : k' = k
      · rw [show dinsert ((k', v') :: rest) k v = (k', v) :: rest by simp [dinsert, hp]]
        simp
      · rw [show dinsert ((k', v') :: rest) k v = (k', v') :: dinsert rest k v by
          simp [dinsert, hp]]
        rw [List.map_cons, List.mem_cons] at h
        rcases h with h | h
        · exact absurd h.symm hp
        · rw [List.map_cons, List.map_cons, dinsert_map_fst_of_mem h]

theorem dinsert_map_fst_of_not_mem {α : Type} {k : String} {v : α} :
    ∀ {d : List (String × α)}, k ∉ d.map Prod.fst →
      (dinsert d k v).map Prod.fst = d.map Prod.fst ++ [k]
  | [], _ => by simp [dinsert]
  | (k', v') :: rest, h => by
      rw [List.map_cons, List.mem_cons] at h
      push_neg at h
      rw [show dinsert ((k', v') :: rest) k v = (k', v') :: dinsert rest k v by
        simp [dinsert, Ne.symm h.1]]
      rw [List.map_cons, List.map_cons, dinsert_map_fst_of_not_mem h.2, List.cons_append]

theorem nodup_keys_dinsert {α : Type} {d : List (String × α)} {k : String} {v : α}
    (h : (d.map Prod.fst).Nodup) : ((dinsert d k v).map Prod.fst).Nodup := by
  by_cases hk : k ∈ d.map Prod.fst
  · rw [dinsert_map_fst_of_mem hk]
    exact h
  · rw [dinsert_map_fst_of_not_mem hk]
    simp [List.nodup_append, h, hk]

/-- A fold that performs one `dict[key] = value` assignment per item, the value depending
only on the item: the shape of every dict-building loop in the sources. -/
def dfold {ι α : Type} (keyf : ι → String) (valf : ι → α)
    (acc : List (String × α)) (items : List ι) : List (String × α) :=
  items.foldl (fun d x => dinsert d (keyf x) (valf x)) acc

theorem dfold_lookup_not_mem {ι α : Type} (keyf : ι → String) (valf : ι → α) {k : String} :
    ∀ (items : List ι) (acc : List (String × α)), (∀ x ∈ items, keyf x ≠ k) →
      dlookup (dfold keyf valf acc items) k = dlookup acc k
  | [], acc, _ => rfl
  | x :: rest, acc, h => by
      rw [show dfold keyf valf acc (x :: rest)
            = dfold keyf valf (dinsert acc (keyf x) (valf x)) rest from rfl]
      rw [dfold_lookup_not_mem keyf valf rest _ (fun y hy => h y (List.mem_cons_of_mem x hy))]
      exact dlookup_dinsert_ne _ _ _ _ (h x (List.mem_cons_self x rest))

theorem dfold_lookup_mem {ι α : Type} (keyf : ι → String) (valf : ι → α) :
    ∀ (items : List ι) (acc : List (String × α)) (x : ι), x ∈ items →
      (items.map keyf).Nodup → dlookup (dfold keyf valf acc items) (keyf x) = some (valf x)
  | [], _, x, hx, _ => absurd hx (List.not_mem_nil x)
  | y :: rest, acc, x, hx, hnd => by
      rw [List.map_cons, List.nodup_cons] at hnd
      rcases List.mem_cons.mp hx with hx | hx
      · subst hx
        rw [show dfold keyf valf acc (x :: rest)
              = dfold keyf valf (dinsert acc (keyf x) (valf x)) rest from rfl]
        rw [dfold_lookup_not_mem keyf valf rest _
          (fun z hz hez => hnd.1 (List.mem_map.mpr ⟨z, hz, hez⟩))]
        exact dlookup_dinsert_self _ _ _
      · exact dfold_lookup_mem keyf valf rest _ x hx hnd.2

theorem mem_keys_dfold {ι α : Type} (keyf : ι → String) (valf : ι → α) {a : String} :
    ∀ (items : List ι) (acc : List (String × α)),
      a ∈ (dfold keyf valf acc items).map Prod.fst → a ∈ acc.map Prod.fst ∨ a ∈ items.map keyf
  | [], acc, h => Or.inl h
  | x :: rest, acc, h => by
      rcases mem_keys_dfold keyf valf rest (dinsert acc (keyf x) (valf x)) h with h' | h'
      · rcases mem_keys_dinsert h' with h'' | h''
        · exact Or.inl h''
        · exact Or.inr (by simp [h''])
      · exact Or.inr (List.mem_cons_of_mem _ h')

theorem nodup_keys_dfold {ι α : Type} (keyf : ι → String) (valf : ι → α) :
    ∀ (items : List ι) (acc : List (String × α)),
      (acc.map Prod.fst).Nodup → ((dfold keyf valf acc items).map Prod.fst).Nodup
  | [], _, h => h
  | x :: rest, acc, h =>
      nodup_keys_dfold keyf valf rest (dinsert acc (keyf x) (valf x)) (nodup_keys_dinsert h)

theorem dlookup_mem {α : Type} : ∀ {d : List (String × α)} {k : String} {v : α},
    dlookup d k = some v → (k, v) ∈ d
  | [], _, _, h => by simp [dlookup] at h
  | (k', v') :: rest, k, v, h => by
      by_cases hp : k' = k
      · rw [show dlookup ((k', v') :: rest) k = some v' by simp [dlookup, hp]] at h
        cases h
        exact hp ▸ List.mem_cons_self _ _
      · rw [show dlookup ((k', v') :: rest) k = dlookup rest k by simp [dlookup, hp]] at h
        exact List.mem_cons_of_mem _ (dlookup_mem h)

theorem dlookup_filter_nodup {α : Type} (p : String × α → Bool) :
    ∀ {d : List (String × α)} {k : String}, (d.map Prod.fst).Nodup →
      dlookup (d.filter p) k
        = (dlookup d k).bind (fun v => if p (k, v) then some v else Option.none)
  | [], _, _ => rfl
  | (k', v') :: rest, k, hnd => by
      rw [List.map_cons, List.nodup_cons] at hnd
      by_cases hp : k' = k
      · subst hp
        by_cases hpass : p (k', v')
        · simp [dlookup, List.filter, hpass]
        · have hrest : dlookup (rest.filter p) k' = Option.none := by
            apply dlookup_eq_none_of_not_mem_keys
            intro hmem
            exact hnd.1 (by
              rcases List.mem_map.mp hmem with ⟨q, hq, hqe⟩
              exact List.mem_map.mpr ⟨q, List.mem_of_mem_filter hq, hqe⟩)
          simp [dlookup, List.filter, hpass, hrest]
      · by_cases hpass : p (k', v')
        · simp [dlookup, List.filter, hpass, hp, dlookup_filter_nodup p hnd.2]
        · simp [dlookup, List.filter, hpass, hp, dlookup_filter_nodup p hnd.2]

/-! ## `django_comment_client/utils.py`: `get_ability`, `extract`, `strip_none`, `safe_content` -/

/-- `get_ability(course_id, content, user)`.  `check_permissions_by_view` is imported from
`django_comment_client.permissions`; its `user`, `course_id` and `content` arguments are the
same at every call site inside `get_ability`, so it is abstracted here as a boolean function
of the permission name.  `content['type']` raises `KeyError` when absent. -/
def get_ability (content : List (String × PyVal))
    (check_permissions_by_view : String → Bool) :
    Except PyError (List (String × Bool)) :=
  match dlookup content "type" with
  | Option.none => .error (.keyError "type")
  | some ctype =>
      .ok [
        ("editable", check_permissions_by_view
          (if ctype = .str "thread" then "update_thread" else "update_comment")),
        ("can_reply", check_permissions_by_view
          (if ctype = .str "thread" then "create_comment" else "create_sub_comment")),
        ("can_endorse", if ctype = .str "comment"
          then check_permissions_by_view "endorse_comment" else false),
        ("can_delete", check_permissions_by_view
          (if ctype = .str "thread" then "delete_thread" else "delete_comment")),
        ("can_openclose", if ctype = .str "thread"
          then check_permissions_by_view "openclose_thread" else false),
        ("can_vote", check_permissions_by_view
          (if ctype = .str "thread" then "vote_for_thread" else "vote_for_comment"))]

/-- `dic.get(k)`: `None` when the key is absent. -/
def pyGet (dic : List (String × PyVal)) (k : String) : PyVal :=
  (dlookup dic k).getD PyVal.none

/-- `extract(dic, keys) = {k: dic.get(k) for k in keys}`. -/
def extract (dic : List (String × PyVal)) (keys : List String) : List (String × PyVal) :=
  dfold id (fun k => pyGet dic k) [] keys

/-- `strip_none(dic)`: keep the items whose value `is not None`. -/
def strip_none (dic : List (String × PyVal)) : List (String × PyVal) :=
  dic.filter (fun p => !(p.2 == PyVal.none))

/-- The `fields` whitelist that `safe_content` starts from. -/
def safe_content_fields : List String := [
  "id", "title", "body", "course_id", "anonymous", "endorsed",
  "parent_id", "thread_id", "votes", "closed",
  "created_at", "updated_at", "depth", "type",
  "commentable_id", "comments_count", "at_position_list",
  "children", "highlighted_title", "highlighted_body",
  "marked_title", "marked_body"]

/-- `safe_content(content)`: extend the whitelist with `username`/`user_id` exactly when
`content.get('anonymous') is False`, then extract those keys and strip `None` values. -/
def safe_content (content : List (String × PyVal)) : List (String × PyVal) :=
  let fields := if pyGet content "anonymous" = PyVal.bool false
    then safe_content_fields ++ ["username", "user_id"]
    else safe_content_fields
  strip_none (extract content fields)

/-! ## `third_party_auth/saml.py`: `SAMLAuthBackend._create_saml_auth` debug wrapping -/

/-- A `OneLogin_Saml2_Auth` instance as `_create_saml_auth` sees it: its `login` and
`process_response` methods and the two XML getters the debug wrapper reads. -/
structure AuthInst (α β γ δ : Type) where
  login : α → β
  process_response : γ → δ
  get_last_request_xml : Unit → String
  get_last_response_xml : Unit → String

/-- The same instance after `_create_saml_auth` may have replaced the two methods:
each method now also yields the debug log line it emits (`Option.none` when it logs nothing). -/
structure LoggedAuthInst (α β γ δ : Type) where
  login : α → β × Option String
  process_response : γ → δ × Option String
  get_last_request_xml : Unit → String
  get_last_response_xml : Unit → String

/-- The `log.info("SAML login %s for IdP %s. XML is:\n%s", ...)` line. -/
def saml_debug_log (action_description idp_name xml : String) : String :=
  "SAML login " ++ action_description ++ " for IdP " ++ idp_name ++ ". XML is:\n" ++ xml

/-- `wrap_with_logging(method_name, action_description, xml_getter)`: call the original
method, log, and return the original result. -/
def wrap_with_logging {α β : Type} (method : α → β) (action_description : String)
    (idp_name : String) (xml_getter : Unit → String) : α → β × Option String :=
  fun args =>
    let result := method args
    (result, some (saml_debug_log action_description idp_name (xml_getter ())))

/-- An auth instance whose methods were not replaced: they log nothing. -/
def unreplacedAuthInst {α β γ δ : Type} (auth_inst : AuthInst α β γ δ) :
    LoggedAuthInst α β γ δ where
  login := fun args => (auth_inst.login args, Option.none)
  process_response := fun args => (auth_inst.process_response args, Option.none)
  get_last_request_xml := auth_inst.get_last_request_xml
  get_last_response_xml := auth_inst.get_last_response_xml

/-- `SAMLAuthBackend._create_saml_auth(idp)` after the superclass produced `auth_inst`:
when `SAMLProviderConfig.current(idp.name).debug_mode` is set, wrap `login` and
`process_response` with logging; otherwise leave the instance untouched. -/
def _create_saml_auth {α β γ δ : Type} (debug_mode : Bool) (idp_name : String)
    (auth_inst : AuthInst α β γ δ) : LoggedAuthInst α β γ δ :=
  if debug_mode then
    { login := wrap_with_logging auth_inst.login "request" idp_name
        auth_inst.get_last_request_xml,
      process_response := wrap_with_logging auth_inst.process_response "response" idp_name
        auth_inst.get_last_response_xml,
      get_last_request_xml := auth_inst.get_last_request_xml,
      get_last_response_xml := auth_inst.get_last_response_xml }
  else unreplacedAuthInst auth_inst

/-! ## `video_pipeline` credentials API (modelled from its tests) -/

/-- The `VideoPipelineIntegration` configuration row the API util consults. -/
structure VideoPipelineIntegration where
  enabled : Bool
  service_username : String

/-- Modelled from the spec: `update_3rd_party_transcription_service_credentials` lives in
`openedx/core/djangoapps/video_pipeline/api.py`, which is not part of this source tree —
only its unit tests (`tests/test_api.py`) are.  The model follows the behavior those tests
assert: return `False` when the integration is disabled; return `False` when the configured
`service_username` has no registered user; otherwise POST the supplied payload to the
`transcript_credentials` endpoint and return `True` on success, or return `False` and call
`log.exception` with the error content when the POST raises `HttpClientError`.  The result
is `(is_updated, payloads POSTed, the log.exception call as (format, argument))`. -/
def update_3rd_party_transcription_service_credentials
    (pipeline_integration : VideoPipelineIntegration)
    (registered_usernames : List String)
    (credentials_payload : List (String × String))
    (post_transcript_credentials : List (String × String) → Except String Unit) :
    Bool × List (List (String × String)) × Option (String × String) :=
  if pipeline_integration.enabled = false then (false, [], Option.none)
  else if (registered_usernames.contains pipeline_integration.service_username) = false then
    (false, [], Option.none)
  else
    match post_transcript_credentials credentials_payload with
    | .ok _ => (true, [credentials_payload], Option.none)
    | .error content =>
        (false, [credentials_payload],
          some ("[video-pipeline-service] Unable to update transcript credentials -- response -- %s",
            content))

/-! ## Claim theorems: C6, C4, C7 -/

/-- C6: `get_ability` returns exactly the six keys `editable`, `can_reply`, `can_endorse`,
`can_delete`, `can_openclose`, `can_vote`; `can_endorse` is the `endorse_comment` check when
`content['type']` is `'comment'` and `False` otherwise; `can_openclose` is the
`openclose_thread` check when the type is `'thread'` and `False` otherwise; each remaining
key uses the thread-specific permission name when the type is `'thread'` and the
comment-specific one otherwise. -/
theorem get_ability_matches_spec (content : List (String × PyVal)) (check : String → Bool)
    (t : PyVal) (ht : dlookup content "type" = some t) :
    ∃ ab, get_ability content check = .ok ab ∧
      ab.map Prod.fst
        = ["editable", "can_reply", "can_endorse", "can_delete", "can_openclose", "can_vote"] ∧
      dlookup ab "can_endorse"
        = some (if t = .str "comment" then check "endorse_comment" else false) ∧
      dlookup ab "can_openclose"
        = some (if t = .str "thread" then check "openclose_thread" else false) ∧
      dlookup ab "editable"
        = some (check (if t = .str "thread" then "update_thread" else "update_comment")) ∧
      dlookup ab "can_reply"
        = some (check (if t = .str "thread" then "create_comment" else "create_sub_comment")) ∧
      dlookup ab "can_delete"
        = some (check (if t = .str "thread" then "delete_thread" else "delete_comment")) ∧
      dlookup ab "can_vote"
        = some (check (if t = .str "thread" then "vote_for_thread" else "vote_for_comment")) := by
  refine ⟨_, by rw [get_ability, ht], ?_, ?_, ?_, ?_, ?_, ?_⟩ <;> simp [dlookup]

theorem get_ability_matches_spec_witness :
    ∃ ab, get_ability [("type", PyVal.str "thread")] (fun _ => true) = .ok ab ∧
      ab.map Prod.fst
        = ["editable", "can_reply", "can_endorse", "can_delete", "can_openclose", "can_vote"] ∧
      dlookup ab "can_endorse"
        = some (if PyVal.str "thread" = .str "comment" then (fun _ => true) "endorse_comment" else false) ∧
      dlookup ab "can_openclose"
        = some (if PyVal.str "thread" = .str "thread" then (fun _ => true) "openclose_thread" else false) ∧
      dlookup ab "editable"
        = some ((fun _ => true) (if PyVal.str "thread" = .str "thread" then "update_thread" else "update_comment")) ∧
      dlookup ab "can_reply"
        = some ((fun _ => true) (if PyVal.str "thread" = .str "thread" then "create_comment" else "create_sub_comment")) ∧
      dlookup ab "can_delete"
        = some ((fun _ => true) (if PyVal.str "thread" = .str "thread" then "delete_thread" else "delete_comment")) ∧
      dlookup ab "can_vote"
        = some ((fun _ => true) (if PyVal.str "thread" = .str "thread" then "vote_for_thread" else "vote_for_comment")) :=
  get_ability_matches_spec [("type", PyVal.str "thread")] (fun _ => true)
    (PyVal.str "thread") rfl

/-- C4: for an identity provider whose current configuration has `debug_mode` set,
`_create_saml_auth` returns an instance whose `login` and `process_response` return exactly
the same result as the unwrapped methods on the same arguments (the wrapping only adds a
log line); when `debug_mode` is unset the methods are not replaced at all. -/
theorem create_saml_auth_debug_transparent {α β γ δ : Type} (debug_mode : Bool)
    (idp_name : String) (auth_inst : AuthInst α β γ δ) :
    (∀ args, ((_create_saml_auth debug_mode idp_name auth_inst).login args).1
        = auth_inst.login args) ∧
    (∀ args, ((_create_saml_auth debug_mode idp_name auth_inst).process_response args).1
        = auth_inst.process_response args) ∧
    (debug_mode = false →
      _create_saml_auth debug_mode idp_name auth_inst = unreplacedAuthInst auth_inst) := by
  cases debug_mode with
  | false => exact ⟨fun _ => rfl, fun _ => rfl, fun _ => rfl⟩
  | true => exact ⟨fun _ => rfl, fun _ => rfl, fun h => by cases h⟩

def authInstEx : AuthInst Nat Nat Nat Nat where
  login := fun n => n + 1
  process_response := fun n => n * 2
  get_last_request_xml := fun _ => "<req/>"
  get_last_response_xml := fun _ => "<resp/>"

theorem create_saml_auth_debug_transparent_witness :
    ((_create_saml_auth true "testshib" authInstEx).login 3).1 = authInstEx.login 3 ∧
    ((_create_saml_auth true "testshib" authInstEx).process_response 5).1
      = authInstEx.process_response 5 ∧
    _create_saml_auth false "testshib" authInstEx = unreplacedAuthInst authInstEx :=
  ⟨(create_saml_auth_debug_transparent true "testshib" authInstEx).1 3,
   (create_saml_auth_debug_transparent true "testshib" authInstEx).2.1 5,
   (create_saml_auth_debug_transparent false "testshib" authInstEx).2.2 rfl⟩

/-- C7: `update_3rd_party_transcription_service_credentials` returns `False` when the
video-pipeline integration is disabled; returns `False` when the configured service
username has no registered user; POSTs exactly the supplied credentials payload to the
`transcript_credentials` endpoint, logs nothing and returns `True` when the request
succeeds; and returns `False` and logs the error content via `log.exception` when the POST
raises `HttpClientError`. -/
theorem update_transcription_credentials_matches_tests
    (pipeline_integration : VideoPipelineIntegration) (registered_usernames : List String)
    (credentials_payload : List (String × String))
    (post : List (String × String) → Except String Unit) :
    (pipeline_integration.enabled = false →
      update_3rd_party_transcription_service_credentials pipeline_integration
        registered_usernames credentials_payload post = (false, [], Option.none)) ∧
    (pipeline_integration.enabled = true →
      registered_usernames.contains pipeline_integration.service_username = false →
      update_3rd_party_transcription_service_credentials pipeline_integration
        registered_usernames credentials_payload post = (false, [], Option.none)) ∧
    (∀ u, pipeline_integration.enabled = true →
      registered_usernames.contains pipeline_integration.service_username = true →
      post credentials_payload = .ok u →
      update_3rd_party_transcription_service_credentials pipeline_integration
        registered_usernames credentials_payload post
        = (true, [credentials_payload], Option.none)) ∧
    (∀ content, pipeline_integration.enabled = true →
      registered_usernames.contains pipeline_integration.service_username = true →
      post credentials_payload = .error content →
      update_3rd_party_transcription_service_credentials pipeline_integration
        registered_usernames credentials_payload post
        = (false, [credentials_payload],
            some ("[video-pipeline-service] Unable to update transcript credentials -- response -- %s",
              content))) := by
  refine ⟨fun hd => ?_, fun he hu => ?_, fun u he hu hp => ?_, fun content he hu hp => ?_⟩
  · rw [update_3rd_party_transcription_service_credentials, hd]
    rfl
  · rw [update_3rd_party_transcription_service_credentials, he, hu]
    rfl
  · rw [update_3rd_party_transcription_service_credentials, he, hu, hp]
    rfl
  · rw [update_3rd_party_transcription_service_credentials, he, hu, hp]
    rfl

theorem update_transcription_credentials_matches_tests_witness :
    update_3rd_party_transcription_service_credentials ⟨true, "svc"⟩ ["svc"]
      [("api_key", "12345678")] (fun _ => .error "invalid_credentials")
      = (false, [[("api_key", "12345678")]],
          some ("[video-pipeline-service] Unable to update transcript credentials -- response -- %s",
            "invalid_credentials")) :=
  (update_transcription_credentials_matches_tests ⟨true, "svc"⟩ ["svc"]
      [("api_key", "12345678")] (fun _ => .error "invalid_credentials")).2.2.2
    "invalid_credentials" rfl rfl rfl

/-! ## Claim C8: `safe_content` -/

theorem mem_keys_strip_none {d : List (String × PyVal)} {a : String}
    (h : a ∈ (strip_none d).map Prod.fst) : a ∈ d.map Prod.fst := by
  rcases List.mem_map.mp h with ⟨q, hq, hqe⟩
  exact List.mem_map.mpr ⟨q, List.mem_of_mem_filter hq, hqe⟩

theorem safe_content_core (content : List (String × PyVal)) (fields : List String)
    (hnd : fields.Nodup) :
    (∀ a ∈ (strip_none (extract content fields)).map Prod.fst, a ∈ fields) ∧
    (∀ k v, dlookup (strip_none (extract content fields)) k = some v → v ≠ PyVal.none) ∧
    (∀ k ∈ fields, dlookup (strip_none (extract content fields)) k
        = if pyGet content k = PyVal.none then Option.none else some (pyGet content k)) := by
  refine ⟨fun a ha => ?_, fun k v hkv => ?_, fun k hk => ?_⟩
  · rcases mem_keys_dfold id (fun k => pyGet content k) fields [] (mem_keys_strip_none ha)
      with h | h
    · simp at h
    · simpa using h
  · have hmem := dlookup_mem hkv
    have := (List.mem_filter.mp hmem).2
    simpa using this
  · have hkeys : ((extract content fields).map Prod.fst).Nodup :=
      nodup_keys_dfold id (fun k => pyGet content k) fields [] (by simp)
    rw [strip_none, dlookup_filter_nodup _ hkeys]
    have hex : dlookup (extract content fields) k = some (pyGet content k) := by
      have := dfold_lookup_mem id (fun k => pyGet content k) fields [] k hk
        (by simpa using hnd)
      simpa using this
    rw [hex]
    by_cases hv : pyGet content k = PyVal.none
    · simp [hv]
    · simp [hv]

/-- C8: `safe_content` only yields keys from the whitelist; `username` and `user_id`
appear only when `content.get('anonymous')` is exactly the value `False` (missing, `None`
or truthy `anonymous` excludes them); every `None` value is stripped from the result, and
a whitelisted key that is present with a non-`None` value is kept with that value. -/
theorem safe_content_matches_spec (content : List (String × PyVal)) :
    (∀ k ∈ (safe_content content).map Prod.fst,
        k ∈ safe_content_fields ∨ k = "username" ∨ k = "user_id") ∧
    (pyGet content "anonymous" ≠ PyVal.bool false →
        "username" ∉ (safe_content content).map Prod.fst ∧
        "user_id" ∉ (safe_content content).map Prod.fst) ∧
    (∀ k v, dlookup (safe_content content) k = some v → v ≠ PyVal.none) ∧
    (∀ k ∈ safe_content_fields, dlookup (safe_content content) k
        = if pyGet content k = PyVal.none then Option.none else some (pyGet content k)) ∧
    (pyGet content "anonymous" = PyVal.bool false → ∀ k, (k = "username" ∨ k = "user_id") →
        dlookup (safe_content content) k
          = if pyGet content k = PyVal.none then Option.none else some (pyGet content k)) := by
  by_cases han : pyGet content "anonymous" = PyVal.bool false
  · have hcore := safe_content_core content (safe_content_fields ++ ["username", "user_id"])
      (by rw [safe_content_fields]; decide)
    have hform : safe_content content
        = strip_none (extract content (safe_content_fields ++ ["username", "user_id"])) := by
      rw [safe_content, if_pos han]
    refine ⟨fun k hk => ?_, fun hano => absurd han hano, fun k v hkv => ?_, fun k hk => ?_,
      fun _ k hk => ?_⟩
    · have := hcore.1 k (hform ▸ hk)
      simpa using this
    · exact hcore.2.1 k v (hform ▸ hkv)
    · rw [hform]
      exact hcore.2.2 k (List.mem_append_left _ hk)
    · rw [hform]
      refine hcore.2.2 k (List.mem_append_right _ ?_)
      rcases hk with hk | hk <;> simp [hk]
  · have hcore := safe_content_core content safe_content_fields
      (by rw [safe_content_fields]; decide)
    have hform : safe_content content = strip_none (extract content safe_content_fields) := by
      rw [safe_content, if_neg han]
    refine ⟨fun k hk => Or.inl (hcore.1 k (hform ▸ hk)), fun _ => ⟨?_, ?_⟩,
      fun k v hkv => hcore.2.1 k v (hform ▸ hkv), fun k hk => hform ▸ hcore.2.2 k hk,
      fun hano => absurd hano han⟩
    · intro hk
      have := hcore.1 _ (hform ▸ hk)
      rw [safe_content_fields] at this
      simp at this
    · intro hk
      have := hcore.1 _ (hform ▸ hk)
      rw [safe_content_fields] at this
      simp at this

theorem safe_content_matches_spec_witness :
    ("username" ∉ (safe_content
        [("anonymous", PyVal.bool true), ("body", PyVal.str "b"),
         ("username", PyVal.str "u")]).map Prod.fst ∧
      "user_id" ∉ (safe_content
        [("anonymous", PyVal.bool true), ("body", PyVal.str "b"),
         ("username", PyVal.str "u")]).map Prod.fst) ∧
    dlookup (safe_content
        [("anonymous", PyVal.bool true), ("body", PyVal.str "b"),
         ("username", PyVal.str "u")]) "body"
      = (if pyGet [("anonymous", PyVal.bool true), ("body", PyVal.str "b"),
            ("username", PyVal.str "u")] "body" = PyVal.none
          then Option.none
          else some (pyGet [("anonymous", PyVal.bool true), ("body", PyVal.str "b"),
            ("username", PyVal.str "u")] "body")) :=
  ⟨(safe_content_matches_spec
      [("anonymous", PyVal.bool true), ("body", PyVal.str "b"),
       ("username", PyVal.str "u")]).2.1 (by decide),
   (safe_content_matches_spec
      [("anonymous", PyVal.bool true), ("body", PyVal.str "b"),
       ("username", PyVal.str "u")]).2.2.2.1 "body" (by decide)⟩

/-! ## `third_party_auth/saml.py`: `SapSuccessFactorsIdentityProvider` -/

/-- The provider's `self.conf` dict, restricted to the keys this class reads.  A field is
`Option.none` exactly when the key is absent from the dict (`var in self.conf` is false). -/
structure SapConf where
  sapsf_oauth_root_url : Option String
  sapsf_private_key : Option String
  odata_api_root_url : Option String
  odata_company_id : Option String
  odata_client_id : Option String
  sapsf_field_mappings : Option (List (String × String))
  sapsf_value_mappings : Option (List (String × List (String × String)))

def required_variables : List String :=
  ["sapsf_oauth_root_url", "sapsf_private_key", "odata_api_root_url",
   "odata_company_id", "odata_client_id"]

/-- `var in self.conf` for the keys this class reads. -/
def confHas (conf : SapConf) (v : String) : Bool :=
  if v = "sapsf_oauth_root_url" then conf.sapsf_oauth_root_url.isSome
  else if v = "sapsf_private_key" then conf.sapsf_private_key.isSome
  else if v = "odata_api_root_url" then conf.odata_api_root_url.isSome
  else if v = "odata_company_id" then conf.odata_company_id.isSome
  else if v = "odata_client_id" then conf.odata_client_id.isSome
  else if v = "sapsf_field_mappings" then conf.sapsf_field_mappings.isSome
  else if v = "sapsf_value_mappings" then conf.sapsf_value_mappings.isSome
  else false

/-- `missing_variables`: the list of missing required variables when some variable is
missing (a truthy value), the implicit `None` otherwise. -/
def missing_variables (conf : SapConf) : Option (List String) :=
  if !(required_variables.all (fun v => confHas conf v)) then
    some (required_variables.filter (fun v => !(confHas conf v)))
  else Option.none

def default_field_mapping : List (String × String) := [
  ("username", "username"), ("firstName", "first_name"), ("lastName", "last_name"),
  ("defaultFullName", "fullname"), ("email", "email"), ("country", "country"),
  ("city", "city")]

/-- `field_mappings`: `default_field_mapping.copy()` updated with
`conf.get('sapsf_field_mappings', {})`. -/
def field_mappings (conf : SapConf) : List (String × String) :=
  dfold Prod.fst Prod.snd default_field_mapping (conf.sapsf_field_mappings.getD [])

/-- A value of the `default_value_mapping` / `value_mappings` dict: per-field mappings are
dicts, but the class body's `default_value_mapping.update({'United States': 'US'})` also
installs a plain string at the top level, so the values are heterogeneous. -/
inductive VMVal where
  | map : List (String × String) → VMVal
  | str : String → VMVal
deriving DecidableEq, Repr

/-- `default_value_mapping`: `{'country': {name: code for code, name in countries}}`, then
`update({'United States': 'US'})`.  `countries` (`django_countries.countries`) is a list of
`(code, name)` pairs supplied by an external package, so it is a parameter here. -/
def default_value_mapping (countries : List (String × String)) : List (String × VMVal) :=
  dinsert [("country", VMVal.map (dfold Prod.snd Prod.fst [] countries))]
    "United States" (.str "US")

/-- One iteration of the `value_mappings` loop over `overrides.items()`:
`base[field].update(override)` when `field in base` (an `AttributeError` when the stored
value is a plain string), `base[field] = override[field]` otherwise (a `KeyError` when
`override` lacks its own field name). -/
def vmstep (base : List (String × VMVal)) (fo : String × List (String × String)) :
    Except PyError (List (String × VMVal)) :=
  match dlookup base fo.1 with
  | some (.map m) => .ok (dinsert base fo.1 (.map (dfold Prod.fst Prod.snd m fo.2)))
  | some (.str _) => .error .attributeError
  | Option.none =>
      match dlookup fo.2 fo.1 with
      | some v => .ok (dinsert base fo.1 (.str v))
      | Option.none => .error (.keyError fo.1)

/-- The `value_mappings` property: fold the `sapsf_value_mappings` overrides into a deep
copy of `default_value_mapping`. -/
def value_mappings (conf : SapConf) (countries : List (String × String)) :
    Except PyError (List (String × VMVal)) :=
  (conf.sapsf_value_mappings.getD []).foldlM vmstep (default_value_mapping countries)

/-- The parsed JSON of a successful OData user query; `get_registration_fields` reads
`response['d']`. -/
structure OResponse where
  d : List (String × String)

def listStartsWith : List Char → List Char → Bool
  | [], _ => true
  | _ :: _, [] => false
  | x :: xs, y :: ys => x = y && listStartsWith xs ys

/-- Python substring containment, for `value in vm` when `vm` is a string. -/
def listContainsSeq (needle : List Char) : List Char → Bool
  | [] => listStartsWith needle []
  | c :: t => listStartsWith needle (c :: t) || listContainsSeq needle t

/-- `value in value_mapping[field]`: key membership for a dict, substring test for a string. -/
def vmContains (vmv : VMVal) (value : String) : Bool :=
  match vmv with
  | .map m => (dlookup m value).isSome
  | .str s => listContainsSeq value.toList s.toList

/-- `value_mapping[field][value]`: dict indexing for a dict (`KeyError` when absent),
a `TypeError` when the stored value is a plain string. -/
def vmIndex (vmv : VMVal) (value : String) : Except PyError String :=
  match vmv with
  | .map m =>
      match dlookup m value with
      | some v => .ok v
      | Option.none => .error (.keyError value)
  | .str _ => .error .typeError

/-- One iteration of the `get_registration_fields` replacement loop over the snapshot of
`registration_fields.items()`:
`if field in value_mapping and value in value_mapping[field]: ... = value_mapping[field][value]`. -/
def regstep (value_mapping : List (String × VMVal)) (rf : List (String × String))
    (fv : String × String) : Except PyError (List (String × String)) :=
  match dlookup value_mapping fv.1 with
  | some vmv =>
      if vmContains vmv fv.2 then
        (vmIndex vmv fv.2).map (fun nv => dinsert rf fv.1 nv)
      else .ok rf
  | Option.none => .ok rf

/-- The first line of `get_registration_fields`:
`{edx_name: response['d'].get(odata_name, '') for odata_name, edx_name in field_mapping.items()}`. -/
def registration_fields_init (conf : SapConf) (response : OResponse) :
    List (String × String) :=
  dfold Prod.snd (fun p => (dlookup response.d p.1).getD "") [] (field_mappings conf)

/-- `get_registration_fields(response)`: build the `registration_fields` dict and then run
the value-mapping replacement loop over (a snapshot of) its items. -/
def get_registration_fields (conf : SapConf) (countries : List (String × String))
    (response : OResponse) : Except PyError (List (String × String)) := do
  let registration_fields := registration_fields_init conf response
  let value_mapping ← value_mappings conf countries
  registration_fields.foldlM (regstep value_mapping) registration_fields

/-- `SapSuccessFactorsIdentityProvider.get_user_details(attributes)`.  `details` is the
superclass (`EdXSAMLIdentityProvider`) result for these attributes; the whole OData
exchange (`get_odata_api_client`, `client.get`, `raise_for_status`, `json()`) is abstracted
as `odata_result`: `.error` when it raises `requests.RequestException`, `.ok` with the
parsed response otherwise. -/
def sap_get_user_details (conf : SapConf) (countries : List (String × String))
    (details : List (String × PyVal)) (odata_result : Except Unit OResponse) :
    Except PyError (List (String × PyVal)) :=
  if (missing_variables conf).isSome then .ok details
  else
    match dlookup details "username" with
    | Option.none => .error (.keyError "username")
    | some _ =>
        match odata_result with
        | .error _ => .ok details
        | .ok response =>
            (get_registration_fields conf countries response).map
              (fun rf => rf.map (fun p => (p.1, PyVal.str p.2)))

/-! ## Claim C3: `sap_get_user_details` fallback behavior -/

theorem missing_variables_eq_none (conf : SapConf)
    (hall : ∀ v ∈ required_variables, confHas conf v = true) :
    missing_variables conf = Option.none := by
  rw [missing_variables, List.all_eq_true.mpr hall]
  rfl

theorem missing_variables_isSome (conf : SapConf) (v : String) (hv : v ∈ required_variables)
    (hfalse : confHas conf v = false) : (missing_variables conf).isSome = true := by
  have hall : required_variables.all (fun v => confHas conf v) = false := by
    rw [← Bool.not_eq_true]
    intro h
    have := List.all_eq_true.mp h v hv
    rw [hfalse] at this
    cases this
  rw [missing_variables, hall]
  rfl

/-- C3: `SapSuccessFactorsIdentityProvider.get_user_details` returns the superclass
(SAML-assertion) details whenever any of the five required configuration variables is
missing, and likewise whenever the OData exchange raises `requests.RequestException`;
only when all variables are present and the request succeeds does it return the
registration fields derived from the OData response. -/
theorem sap_get_user_details_matches_spec (conf : SapConf) (countries : List (String × String))
    (details : List (String × PyVal)) (odata_result : Except Unit OResponse) :
    ((∃ v ∈ required_variables, confHas conf v = false) →
        sap_get_user_details conf countries details odata_result = .ok details) ∧
    (∀ u e, (∀ v ∈ required_variables, confHas conf v = true) →
        dlookup details "username" = some u → odata_result = .error e →
        sap_get_user_details conf countries details odata_result = .ok details) ∧
    (∀ u resp, (∀ v ∈ required_variables, confHas conf v = true) →
        dlookup details "username" = some u → odata_result = .ok resp →
        sap_get_user_details conf countries details odata_result
          = (get_registration_fields conf countries resp).map
              (fun rf => rf.map (fun p => (p.1, PyVal.str p.2)))) := by
  refine ⟨fun hmiss => ?_, fun u e hall hu he => ?_, fun u resp hall hu hr => ?_⟩
  · obtain ⟨v, hv, hfalse⟩ := hmiss
    rw [sap_get_user_details.eq_def, if_pos (missing_variables_isSome conf v hv hfalse)]
  · subst he
    rw [sap_get_user_details.eq_def]
    rw [show (missing_variables conf).isSome = false by
      rw [missing_variables_eq_none conf hall]; rfl]
    simp only [Bool.false_eq_true, if_false, hu]
  · subst hr
    rw [sap_get_user_details.eq_def]
    rw [show (missing_variables conf).isSome = false by
      rw [missing_variables_eq_none conf hall]; rfl]
    simp only [Bool.false_eq_true, if_false, hu]

def sapConfAll : SapConf :=
  ⟨some "https://successfactors.com/oauth/", some "private-key",
   some "https://successfactors.com/odata/", some "company-id", some "client-id",
   Option.none, Option.none⟩

def sapConfMissing : SapConf :=
  ⟨Option.none, some "private-key", some "https://successfactors.com/odata/",
   some "company-id", some "client-id", Option.none, Option.none⟩

theorem sap_get_user_details_matches_spec_witness :
    sap_get_user_details sapConfMissing [] [("username", PyVal.str "jdoe")] (.ok ⟨[]⟩)
      = .ok [("username", PyVal.str "jdoe")] ∧
    sap_get_user_details sapConfAll [] [("username", PyVal.str "jdoe")] (.error ())
      = .ok [("username", PyVal.str "jdoe")] ∧
    sap_get_user_details sapConfAll [] [("username", PyVal.str "jdoe")] (.ok ⟨[]⟩)
      = (get_registration_fields sapConfAll [] ⟨[]⟩).map
          (fun rf => rf.map (fun p => (p.1, PyVal.str p.2))) :=
  ⟨(sap_get_user_details_matches_spec sapConfMissing [] [("username", PyVal.str "jdoe")]
      (.ok ⟨[]⟩)).1 ⟨"sapsf_oauth_root_url", by decide, by decide⟩,
   (sap_get_user_details_matches_spec sapConfAll [] [("username", PyVal.str "jdoe")]
      (.error ())).2.1 (PyVal.str "jdoe") () (by decide) rfl rfl,
   (sap_get_user_details_matches_spec sapConfAll [] [("username", PyVal.str "jdoe")]
      (.ok ⟨[]⟩)).2.2 (PyVal.str "jdoe") ⟨[]⟩ (by decide) rfl rfl⟩

/-! ## Claim C5: `get_registration_fields` -/

theorem dlookup_self_of_nodup {α : Type} :
    ∀ {d : List (String × α)}, (d.map Prod.fst).Nodup → ∀ p ∈ d, dlookup d p.1 = some p.2
  | [], _, p, hp => absurd hp (List.not_mem_nil p)
  | (k, v) :: rest, hnd, p, hp => by
      rw [List.map_cons, List.nodup_cons] at hnd
      rcases List.mem_cons.mp hp with hp | hp
      · subst hp
        simp [dlookup]
      · have hne : k ≠ p.1 := fun he => hnd.1 (he ▸ List.mem_map.mpr ⟨p, hp, rfl⟩)
        rw [show dlookup ((k, v) :: rest) p.1 = dlookup rest p.1 by simp [dlookup, hne]]
        exact dlookup_self_of_nodup hnd.2 p hp

theorem dfold_keys_append {ι α : Type} (keyf : ι → String) (valf : ι → α) :
    ∀ (items : List ι) (acc : List (String × α)), (items.map keyf).Nodup →
      (∀ a ∈ acc.map Prod.fst, a ∉ items.map keyf) →
      (dfold keyf valf acc items).map Prod.fst = acc.map Prod.fst ++ items.map keyf
  | [], acc, _, _ => by simp [dfold]
  | x :: rest, acc, hnd, hdisj => by
      rw [List.map_cons, List.nodup_cons] at hnd
      have hx : keyf x ∉ acc.map Prod.fst := fun hmem => hdisj _ hmem (by simp)
      have hdisj' : ∀ a ∈ (dinsert acc (keyf x) (valf x)).map Prod.fst, a ∉ rest.map keyf := by
        intro a ha
        rcases mem_keys_dinsert ha with h | h
        · exact fun hr => hdisj a h (List.mem_cons_of_mem _ hr)
        · exact h ▸ hnd.1
      rw [show dfold keyf valf acc (x :: rest)
            = dfold keyf valf (dinsert acc (keyf x) (valf x)) rest from rfl]
      rw [dfold_keys_append keyf valf rest _ hnd.2 hdisj',
        dinsert_map_fst_of_not_mem hx, List.append_assoc, List.singleton_append,
        List.map_cons]

/-- `True` when `value_mapping` does not store a plain string under `f` (so that
`value_mapping[f][value]` cannot raise `TypeError`). -/
def notStrAt (vm : List (String × VMVal)) (f : String) : Bool :=
  match dlookup vm f with
  | some (.str _) => false
  | _ => true

/-- The value `get_registration_fields` ends up with for field `f` whose extracted raw
value is `raw`: replaced through the value mapping when one applies, kept otherwise. -/
def applied_value (vm : List (String × VMVal)) (f raw : String) : String :=
  match dlookup vm f with
  | some (.map m) =>
      match dlookup m raw with
      | some nv => nv
      | Option.none => raw
  | _ => raw

theorem regstep_ok (vm : List (String × VMVal)) (rf : List (String × String))
    (f v : String) (hval : dlookup rf f = some v) (hns : notStrAt vm f = true) :
    ∃ rf1, regstep vm rf (f, v) = .ok rf1 ∧
      rf1.map Prod.fst = rf.map Prod.fst ∧
      dlookup rf1 f = some (applied_value vm f v) ∧
      ∀ k, k ≠ f → dlookup rf1 k = dlookup rf k := by
  cases hvm : dlookup vm f with
  | none =>
      refine ⟨rf, by simp [regstep, hvm], rfl, ?_, fun _ _ => rfl⟩
      simp [applied_value, hvm, hval]
  | some vmv =>
      cases vmv with
      | str s =>
          rw [notStrAt, hvm] at hns
          cases hns
      | map m =>
          cases hmv : dlookup m v with
          | some nv =>
              refine ⟨dinsert rf f nv,
                by simp [regstep, hvm, vmContains, hmv, vmIndex, Except.map],
                dinsert_map_fst_of_mem (mem_keys_of_dlookup_eq_some hval), ?_,
                fun k hk => dlookup_dinsert_ne _ _ _ _ (Ne.symm hk)⟩
              rw [dlookup_dinsert_self]
              simp [applied_value, hvm, hmv]
          | none =>
              refine ⟨rf, by simp [regstep, hvm, vmContains, hmv], rfl, ?_, fun _ _ => rfl⟩
              simp [applied_value, hvm, hmv, hval]

theorem regfields_loop (vm : List (String × VMVal)) :
    ∀ (l : List (String × String)) (rf : List (String × String)),
      (l.map Prod.fst).Nodup →
      (∀ p ∈ l, dlookup rf p.1 = some p.2) →
      (∀ p ∈ l, notStrAt vm p.1 = true) →
      ∃ rf', l.foldlM (regstep vm) rf = .ok rf' ∧
        rf'.map Prod.fst = rf.map Prod.fst ∧
        (∀ p ∈ l, dlookup rf' p.1 = some (applied_value vm p.1 p.2)) ∧
        (∀ k, k ∉ l.map Prod.fst → dlookup rf' k = dlookup rf k)
  | [], rf, _, _, _ => ⟨rf, rfl, rfl, by simp, fun _ _ => rfl⟩
  | (f, v) :: rest, rf, hnd, hvals, hnostr => by
      rw [List.map_cons, List.nodup_cons] at hnd
      obtain ⟨rf1, hstep, hkeys1, hf1, hother1⟩ := regstep_ok vm rf f v
        (hvals (f, v) (List.mem_cons_self _ _)) (hnostr (f, v) (List.mem_cons_self _ _))
      obtain ⟨rf', hfold, hkeys', hvals', hother'⟩ := regfields_loop vm rest rf1 hnd.2
        (fun p hp => by
          rw [hother1 p.1 (fun he => hnd.1 (he ▸ List.mem_map.mpr ⟨p, hp, rfl⟩))]
          exact hvals p (List.mem_cons_of_mem _ hp))
        (fun p hp => hnostr p (List.mem_cons_of_mem _ hp))
      refine ⟨rf', ?_, hkeys'.trans hkeys1, fun p hp => ?_, fun k hk => ?_⟩
      · rw [List.foldlM_cons, hstep]
        exact hfold
      · rcases List.mem_cons.mp hp with hp | hp
        · cases hp
          rw [hother' f hnd.1]
          exact hf1
        · exact hvals' p hp
      · rw [List.map_cons, List.mem_cons] at hk
        push_neg at hk
        rw [hother' k hk.2]
        exact hother1 k hk.1

/-- C5: for every OData response, `get_registration_fields` returns a dict mapping each
Open edX field name in `field_mappings` to the response's `'d'` value for the
corresponding SAPSF field name (the empty string when absent), with the value replaced
through `value_mappings` when that field has a mapping containing the value. -/
theorem get_registration_fields_matches_spec (conf : SapConf)
    (countries : List (String × String)) (response : OResponse)
    (vm : List (String × VMVal))
    (hnd : ((field_mappings conf).map Prod.snd).Nodup)
    (hvm : value_mappings conf countries = .ok vm)
    (hnostr : ∀ p ∈ field_mappings conf, notStrAt vm p.2 = true) :
    ∃ rf, get_registration_fields conf countries response = .ok rf ∧
      rf.map Prod.fst = (field_mappings conf).map Prod.snd ∧
      ∀ p ∈ field_mappings conf,
        dlookup rf p.2 = some (applied_value vm p.2 ((dlookup response.d p.1).getD "")) := by
  have hkeys0 : (registration_fields_init conf response).map Prod.fst
      = (field_mappings conf).map Prod.snd := by
    rw [registration_fields_init, dfold_keys_append _ _ (field_mappings conf) [] hnd (by simp)]
    simp
  have hvals0 : ∀ p ∈ field_mappings conf,
      dlookup (registration_fields_init conf response) p.2
        = some ((dlookup response.d p.1).getD "") :=
    fun p hp => dfold_lookup_mem Prod.snd _ (field_mappings conf) [] p hp hnd
  have hnd0 : ((registration_fields_init conf response).map Prod.fst).Nodup :=
    hkeys0 ▸ hnd
  have hself : ∀ q ∈ registration_fields_init conf response,
      dlookup (registration_fields_init conf response) q.1 = some q.2 :=
    dlookup_self_of_nodup hnd0
  have hns0 : ∀ q ∈ registration_fields_init conf response, notStrAt vm q.1 = true := by
    intro q hq
    have hqk : q.1 ∈ (field_mappings conf).map Prod.snd :=
      hkeys0 ▸ List.mem_map.mpr ⟨q, hq, rfl⟩
    rcases List.mem_map.mp hqk with ⟨p, hp, hpe⟩
    exact hpe ▸ hnostr p hp
  obtain ⟨rf', hfold, hkeys', hvals', -⟩ := regfields_loop vm
    (registration_fields_init conf response) (registration_fields_init conf response)
    hnd0 hself hns0
  refine ⟨rf', ?_, hkeys'.trans hkeys0, fun p hp => ?_⟩
  · have hdo : get_registration_fields conf countries response
        = (value_mappings conf countries).bind (fun value_mapping =>
            (registration_fields_init conf response).foldlM (regstep value_mapping)
              (registration_fields_init conf response)) := rfl
    rw [hdo, hvm]
    exact hfold
  · exact hvals' (p.2, (dlookup response.d p.1).getD "") (dlookup_mem (hvals0 p hp))

theorem get_registration_fields_matches_spec_witness :
    ((get_registration_fields sapConfAll [("US", "United States"), ("CA", "Canada")]
        ⟨[("country", "Canada"), ("username", "jdoe")]⟩).toOption.bind
      (fun rf => dlookup rf "country")) = some "CA" := by
  obtain ⟨rf, hok, -, hv⟩ := get_registration_fields_matches_spec sapConfAll
    [("US", "United States"), ("CA", "Canada")] ⟨[("country", "Canada"), ("username", "jdoe")]⟩
    (default_value_mapping [("US", "United States"), ("CA", "Canada")])
    (by decide) rfl (by decide)
  rw [hok]
  have h := hv ("country", "country") (by decide)
  rw [show (Except.ok rf : Except PyError (List (String × String))).toOption.bind
      (fun rf => dlookup rf "country") = dlookup rf "country" from rfl]
  rw [h]
  rfl

/-! ## Claim C10: the `value_mappings` property -/

theorem dfold_update_lookup {α : Type} (m ov : List (String × α)) (k : String)
    (hnd : (ov.map Prod.fst).Nodup) :
    dlookup (dfold Prod.fst Prod.snd m ov) k = (dlookup ov k).or (dlookup m k) := by
  cases hov : dlookup ov k with
  | some v =>
      rw [Option.or]
      exact dfold_lookup_mem Prod.fst Prod.snd ov m (k, v) (dlookup_mem hov) hnd
  | none =>
      have hnm : k ∉ ov.map Prod.fst := by
        intro hmem
        rcases List.mem_map.mp hmem with ⟨p, hp, hpe⟩
        have := dlookup_self_of_nodup hnd p hp
        rw [hpe, hov] at this
        cases this
      rw [Option.or]
      exact dfold_lookup_not_mem Prod.fst Prod.snd ov m
        (fun x hx he => hnm (List.mem_map.mpr ⟨x, hx, he⟩))

theorem notStrAt_congr {d d' : List (String × VMVal)} {f : String}
    (h : dlookup d f = dlookup d' f) : notStrAt d f = notStrAt d' f := by
  simp only [notStrAt]
  rw [h]

theorem vm_loop_ok :
    ∀ (l : List (String × List (String × String))) (base : List (String × VMVal)),
      (l.map Prod.fst).Nodup →
      (∀ fo ∈ l, notStrAt base fo.1 = true) →
      (∀ fo ∈ l, (dlookup base fo.1).isSome ∨ (dlookup fo.2 fo.1).isSome) →
      ∃ base', l.foldlM vmstep base = .ok base' ∧
        (∀ fo ∈ l,
          (∀ m, dlookup base fo.1 = some (.map m) →
            dlookup base' fo.1 = some (.map (dfold Prod.fst Prod.snd m fo.2))) ∧
          (dlookup base fo.1 = Option.none →
            ∀ v, dlookup fo.2 fo.1 = some v → dlookup base' fo.1 = some (.str v))) ∧
        (∀ f, f ∉ l.map Prod.fst → dlookup base' f = dlookup base f)
  | [], base, _, _, _ => ⟨base, rfl, by simp, fun _ _ => rfl⟩
  | (f, ov) :: rest, base, hnd, hns, hsucc => by
      rw [List.map_cons, List.nodup_cons] at hnd
      cases hb : dlookup base f with
      | some vmv =>
          cases vmv with
          | str s =>
              have := hns (f, ov) (List.mem_cons_self _ _)
              simp [notStrAt, hb] at this
          | map m =>
              have hstep : vmstep base (f, ov)
                  = .ok (dinsert base f (.map (dfold Prod.fst Prod.snd m ov))) := by
                simp [vmstep, hb]
              have hpres : ∀ fo ∈ rest,
                  dlookup (dinsert base f (.map (dfold Prod.fst Prod.snd m ov))) fo.1
                    = dlookup base fo.1 := by
                intro fo hfo
                exact dlookup_dinsert_ne _ _ _ _
                  (fun he => hnd.1 (he ▸ List.mem_map.mpr ⟨fo, hfo, rfl⟩))
              obtain ⟨base', hfold, hprops, hother⟩ := vm_loop_ok rest
                (dinsert base f (.map (dfold Prod.fst Prod.snd m ov))) hnd.2
                (fun fo hfo => (notStrAt_congr (hpres fo hfo)).trans
                  (hns fo (List.mem_cons_of_mem _ hfo)))
                (fun fo hfo => by
                  rw [hpres fo hfo]
                  exact hsucc fo (List.mem_cons_of_mem _ hfo))
              refine ⟨base', by rw [List.foldlM_cons, hstep]; exact hfold,
                fun fo hfo => ?_, fun f' hf' => ?_⟩
              · rcases List.mem_cons.mp hfo with hfo | hfo
                · cases hfo
                  refine ⟨fun m' hm' => ?_, fun hnone _ _ => ?_⟩
                  · rw [hb] at hm'
                    cases hm'
                    rw [hother f hnd.1]
                    exact dlookup_dinsert_self _ _ _
                  · rw [hb] at hnone
                    cases hnone
                · refine ⟨fun m' hm' => ?_, fun hnone v hv => ?_⟩
                  · exact (hprops fo hfo).1 m' ((hpres fo hfo).trans hm')
                  · exact (hprops fo hfo).2 ((hpres fo hfo).trans hnone) v hv
              · rw [List.map_cons, List.mem_cons] at hf'
                push_neg at hf'
                rw [hother f' hf'.2]
                exact dlookup_dinsert_ne _ _ _ _ (Ne.symm hf'.1)
      | none =>
          cases hov : dlookup ov f with
          | some v =>
              have hstep : vmstep base (f, ov) = .ok (dinsert base f (.str v)) := by
                simp [vmstep, hb, hov]
              have hpres : ∀ fo ∈ rest,
                  dlookup (dinsert base f (.str v)) fo.1 = dlookup base fo.1 := by
                intro fo hfo
                exact dlookup_dinsert_ne _ _ _ _
                  (fun he => hnd.1 (he ▸ List.mem_map.mpr ⟨fo, hfo, rfl⟩))
              obtain ⟨base', hfold, hprops, hother⟩ := vm_loop_ok rest
                (dinsert base f (.str v)) hnd.2
                (fun fo hfo => (notStrAt_congr (hpres fo hfo)).trans
                  (hns fo (List.mem_cons_of_mem _ hfo)))
                (fun fo hfo => by
                  rw [hpres fo hfo]
                  exact hsucc fo (List.mem_cons_of_mem _ hfo))
              refine ⟨base', by rw [List.foldlM_cons, hstep]; exact hfold,
                fun fo hfo => ?_, fun f' hf' => ?_⟩
              · rcases List.mem_cons.mp hfo with hfo | hfo
                · cases hfo
                  refine ⟨fun m' hm' => ?_, fun _ v' hv' => ?_⟩
                  · rw [hb] at hm'
                    cases hm'
                  · rw [hov] at hv'
                    cases hv'
                    rw [hother f hnd.1]
                    exact dlookup_dinsert_self _ _ _
                · refine ⟨fun m' hm' => ?_, fun hnone v' hv' => ?_⟩
                  · exact (hprops fo hfo).1 m' ((hpres fo hfo).trans hm')
                  · exact (hprops fo hfo).2 ((hpres fo hfo).trans hnone) v' hv'
              · rw [List.map_cons, List.mem_cons] at hf'
                push_neg at hf'
                rw [hother f' hf'.2]
                exact dlookup_dinsert_ne _ _ _ _ (Ne.symm hf'.1)
          | none =>
              have := hsucc (f, ov) (List.mem_cons_self _ _)
              rw [hb, hov] at this
              simp at this

theorem vm_loop_error :
    ∀ (l : List (String × List (String × String))) (base : List (String × VMVal)),
      (l.map Prod.fst).Nodup →
      (∀ fo ∈ l, notStrAt base fo.1 = true) →
      (∃ fo ∈ l, dlookup base fo.1 = Option.none ∧ dlookup fo.2 fo.1 = Option.none) →
      ∃ f, l.foldlM vmstep base = .error (.keyError f)
  | [], _, _, _, hex => by
      rcases hex with ⟨fo, hfo, -⟩
      exact absurd hfo (List.not_mem_nil fo)
  | (f, ov) :: rest, base, hnd, hns, hex => by
      rw [List.map_cons, List.nodup_cons] at hnd
      rcases hex with ⟨fo, hfo, hnone, hovnone⟩
      rcases List.mem_cons.mp hfo with hfoh | hfot
      · cases hfoh
        refine ⟨f, ?_⟩
        rw [List.foldlM_cons]
        rw [show vmstep base (f, ov) = .error (.keyError f) by simp [vmstep, hnone, hovnone]]
        rfl
      · cases hb : dlookup base f with
        | some vmv =>
            cases vmv with
            | str s =>
                have := hns (f, ov) (List.mem_cons_self _ _)
                simp [notStrAt, hb] at this
            | map m =>
                have hstep : vmstep base (f, ov)
                    = .ok (dinsert base f (.map (dfold Prod.fst Prod.snd m ov))) := by
                  simp [vmstep, hb]
                have hpres : ∀ fo' ∈ rest,
                    dlookup (dinsert base f (.map (dfold Prod.fst Prod.snd m ov))) fo'.1
                      = dlookup base fo'.1 := by
                  intro fo' hfo'
                  exact dlookup_dinsert_ne _ _ _ _
                    (fun he => hnd.1 (he ▸ List.mem_map.mpr ⟨fo', hfo', rfl⟩))
                obtain ⟨f', herr⟩ := vm_loop_error rest
                  (dinsert base f (.map (dfold Prod.fst Prod.snd m ov))) hnd.2
                  (fun fo' hfo' => (notStrAt_congr (hpres fo' hfo')).trans
                    (hns fo' (List.mem_cons_of_mem _ hfo')))
                  ⟨fo, hfot, (hpres fo hfot).trans hnone, hovnone⟩
                refine ⟨f', ?_⟩
                rw [List.foldlM_cons, hstep]
                exact herr
        | none =>
            cases hov : dlookup ov f with
            | some v =>
                have hstep : vmstep base (f, ov) = .ok (dinsert base f (.str v)) := by
                  simp [vmstep, hb, hov]
                have hpres : ∀ fo' ∈ rest,
                    dlookup (dinsert base f (.str v)) fo'.1 = dlookup base fo'.1 := by
                  intro fo' hfo'
                  exact dlookup_dinsert_ne _ _ _ _
                    (fun he => hnd.1 (he ▸ List.mem_map.mpr ⟨fo', hfo', rfl⟩))
                obtain ⟨f', herr⟩ := vm_loop_error rest (dinsert base f (.str v)) hnd.2
                  (fun fo' hfo' => (notStrAt_congr (hpres fo' hfo')).trans
                    (hns fo' (List.mem_cons_of_mem _ hfo')))
                  ⟨fo, hfot, (hpres fo hfot).trans hnone, hovnone⟩
                refine ⟨f', ?_⟩
                rw [List.foldlM_cons, hstep]
                exact herr
            | none =>
                refine ⟨f, ?_⟩
                rw [List.foldlM_cons]
                rw [show vmstep base (f, ov) = .error (.keyError f) by simp [vmstep, hb, hov]]
                rfl

/-- C10: accessing `value_mappings` merges each `sapsf_value_mappings` override whose
field is present in the default value mapping into that field's default dict (preserving
default pairs not overridden); for an override field absent from the defaults it runs
`base[field] = override[field]`, so the access succeeds only when the override dict
contains its own field name as a key, and raises `KeyError` otherwise. -/
theorem value_mappings_matches_spec (conf : SapConf) (countries : List (String × String))
    (hnd : ((conf.sapsf_value_mappings.getD []).map Prod.fst).Nodup)
    (hns : ∀ fo ∈ conf.sapsf_value_mappings.getD [],
      notStrAt (default_value_mapping countries) fo.1 = true) :
    ((∀ fo ∈ conf.sapsf_value_mappings.getD [],
        (dlookup (default_value_mapping countries) fo.1).isSome
          ∨ (dlookup fo.2 fo.1).isSome) →
      ∃ base, value_mappings conf countries = .ok base ∧
        (∀ fo ∈ conf.sapsf_value_mappings.getD [],
          (∀ m, dlookup (default_value_mapping countries) fo.1 = some (.map m) →
            dlookup base fo.1 = some (.map (dfold Prod.fst Prod.snd m fo.2)) ∧
            ((fo.2.map Prod.fst).Nodup → ∀ k,
              dlookup (dfold Prod.fst Prod.snd m fo.2) k
                = (dlookup fo.2 k).or (dlookup m k))) ∧
          (dlookup (default_value_mapping countries) fo.1 = Option.none →
            ∀ v, dlookup fo.2 fo.1 = some v → dlookup base fo.1 = some (.str v))) ∧
        (∀ f, f ∉ (conf.sapsf_value_mappings.getD []).map Prod.fst →
          dlookup base f = dlookup (default_value_mapping countries) f)) ∧
    ((∃ fo ∈ conf.sapsf_value_mappings.getD [],
        dlookup (default_value_mapping countries) fo.1 = Option.none ∧
        dlookup fo.2 fo.1 = Option.none) →
      ∃ f, value_mappings conf countries = .error (.keyError f)) := by
  constructor
  · intro hsucc
    obtain ⟨base, hfold, hprops, hother⟩ := vm_loop_ok (conf.sapsf_value_mappings.getD [])
      (default_value_mapping countries) hnd hns hsucc
    refine ⟨base, hfold, fun fo hfo => ?_, hother⟩
    refine ⟨fun m hm => ⟨(hprops fo hfo).1 m hm,
      fun hovnd k => dfold_update_lookup m fo.2 k hovnd⟩, (hprops fo hfo).2⟩
  · intro hex
    exact vm_loop_error (conf.sapsf_value_mappings.getD [])
      (default_value_mapping countries) hnd hns hex

def sapConfVmOk : SapConf :=
  ⟨Option.none, Option.none, Option.none, Option.none, Option.none, Option.none,
   some [("country", [("Kanada", "CA")]), ("gender", [("gender", "m")])]⟩

def sapConfVmErr : SapConf :=
  ⟨Option.none, Option.none, Option.none, Option.none, Option.none, Option.none,
   some [("gender", [("M", "m")])]⟩

theorem value_mappings_matches_spec_witness :
    (value_mappings sapConfVmOk [("US", "United States"), ("CA", "Canada")]).isOk = true ∧
    (value_mappings sapConfVmErr [("US", "United States"), ("CA", "Canada")]).isOk = false := by
  constructor
  · obtain ⟨base, hok, -, -⟩ := (value_mappings_matches_spec sapConfVmOk
      [("US", "United States"), ("CA", "Canada")] (by decide) (by decide)).1 (by decide)
    rw [hok]
    rfl
  · obtain ⟨f, herr⟩ := (value_mappings_matches_spec sapConfVmErr
      [("US", "United States"), ("CA", "Canada")] (by decide) (by decide)).2
      ⟨("gender", [("M", "m")]), by decide, by decide, by decide⟩
    rw [herr]
    rfl

/-! ## `django_comment_client/utils.py`: `initialize_discussion_info` -/

/-- An xmodule location; `initialize_discussion_info` reads its `category`, and stores the
whole location in the id map. -/
structure Location where
  category : String
  name : String
deriving DecidableEq, Repr

/-- The metadata dict of a module as the code reads it: `id`, `discussion_category`,
`for`, and the optional `sort_key`. -/
structure Metadata where
  id : String
  discussion_category : String
  «for» : String
  sort_key : Option String
deriving DecidableEq, Repr

structure CourseModule where
  metadata : Metadata
deriving DecidableEq, Repr

/-- `discussion_id_map[id] = {"location": location, "title": title}`. -/
structure IdMapEntry where
  location : Location
  title : String
deriving DecidableEq, Repr

/-- `{"title": title, "id": id, "sort_key": sort_key}` in `unexpanded_category_map`. -/
structure UnexpEntry where
  title : String
  id : String
  sort_key : String
deriving DecidableEq, Repr

/-- `{"id": id, "sort_key": sort_key}` in a node's `entries`. -/
structure MapEntry where
  id : String
  sort_key : String
deriving DecidableEq, Repr

/-- The whitespace characters Python's `str.strip()` removes. -/
def isPyWS (c : Char) : Bool :=
  c = ' ' || c = '\t' || c = '\n' || c = '\r' || c = '\x0b' || c = '\x0c'

/-- Python `s.split(sep)` for a one-character separator, on the character list. -/
def pySplitChar (sep : Char) : List Char → List (List Char)
  | [] => [[]]
  | c :: cs =>
      if c = sep then [] :: pySplitChar sep cs
      else
        match pySplitChar sep cs with
        | [] => [[c]]
        | h :: t => (c :: h) :: t

/-- Python `s.lstrip()` on the character list. -/
def pyLStrip (s : List Char) : List Char := s.dropWhile isPyWS

/-- Python `s.rstrip()` on the character list. -/
def pyRStrip (s : List Char) : List Char := (s.reverse.dropWhile isPyWS).reverse

/-- Python `s.strip()` on the character list. -/
def pyStrip (s : List Char) : List Char := pyRStrip (pyLStrip s)

/-- Python `sep.join(segs)` on character lists. -/
def pyJoin (sep : List Char) : List (List Char) → List Char
  | [] => []
  | [s] => s
  | s :: rest => s ++ sep ++ pyJoin sep rest

/-- `" / ".join([x.strip() for x in category.split("/")])`. -/
def normalizeCategory (category : String) : String :=
  ⟨pyJoin [' ', '/', ' '] ((pySplitChar '/' category.toList).map pyStrip)⟩

/-- `[x.strip() for x in path_string.split("/")]`: the list of category levels. -/
def splitPath (s : String) : List String :=
  ((pySplitChar '/' s.toList).map pyStrip).map (fun l => ⟨l⟩)

/-- A node of the category map: the `entries` dict, the `subcategories` dict, the node's
`sort_key`, and the `children` list that `sort_map_entries` fills in (empty until then).
The top-level `category_map` has the same shape with an unused `sort_key`. -/
inductive CatNode where
  | mk : List (String × MapEntry) → List (String × CatNode) → String → List String → CatNode

def CatNode.entries : CatNode → List (String × MapEntry)
  | .mk e _ _ _ => e

def CatNode.subcategories : CatNode → List (String × CatNode)
  | .mk _ s _ _ => s

def CatNode.sort_key : CatNode → String
  | .mk _ _ k _ => k

def CatNode.children : CatNode → List String
  | .mk _ _ _ c => c

/-- `{"subcategories": defaultdict(dict), "entries": defaultdict(dict), "sort_key": level}`. -/
def emptyCatNode (level : String) : CatNode := .mk [] [] level []

/-- The first loop of `initialize_discussion_info`: one pass over `all_modules.items()`
building `discussion_id_map` and `unexpanded_category_map`. -/
def discussion_maps (all_modules : List (Location × CourseModule)) :
    List (String × IdMapEntry) × List (String × List UnexpEntry) :=
  all_modules.foldl
    (fun maps lm =>
      if lm.1.category = "discussion" then
        let id := lm.2.metadata.id
        let category := lm.2.metadata.discussion_category
        let title := lm.2.metadata.«for»
        let sort_key := lm.2.metadata.sort_key.getD title
        (dinsert maps.1 id ⟨lm.1, title⟩,
         dappend maps.2 (normalizeCategory category) ⟨title, id, sort_key⟩)
      else maps)
    ([], [])

/-- The body of the `for category_path, entries in unexpanded_category_map.items()` loop:
walk (creating missing nodes) down the subcategory dicts along `path` and write the
group's entries into the final node's `entries`. -/
def insertGroup (subcats : List (String × CatNode)) :
    List String → List UnexpEntry → List (String × CatNode)
  | [], _ => subcats
  | [level], entries =>
      let node := (dlookup subcats level).getD (emptyCatNode level)
      dinsert subcats level
        (.mk (dfold UnexpEntry.title (fun e => MapEntry.mk e.id e.sort_key)
            node.entries entries)
          node.subcategories node.sort_key node.children)
  | level :: rest, entries =>
      let node := (dlookup subcats level).getD (emptyCatNode level)
      dinsert subcats level
        (.mk node.entries (insertGroup node.subcategories rest entries)
          node.sort_key node.children)

/-- The second loop of `initialize_discussion_info`: expand the grouped entries into the
nested `category_map` (whose top level only uses `subcategories` and `entries`). -/
def build_category_map (groups : List (String × List UnexpEntry)) : CatNode :=
  .mk [] (groups.foldl (fun sc g => insertGroup sc (splitPath g.1) g.2) []) "" []

mutual
/-- `sort_map_entries(category_map)`: recursively sort each node, then set `children` to
the entry/subcategory titles ordered by `sort_key` (a stable sort, like Python's
`sorted`).  The `(title, sort_key)` pairs stand in for the `(title, dict)` pairs of the
source's `things` list: `sorted` only reads the `sort_key`, and `children` only keeps the
title. -/
def sort_map_entries : CatNode → CatNode
  | .mk entries subcats sk _ =>
      let subcats' := sort_map_entries_list subcats
      let things := entries.map (fun p => (p.1, p.2.sort_key))
        ++ subcats'.map (fun p => (p.1, p.2.sort_key))
      .mk entries subcats' sk
        ((List.insertionSort (fun x y : String × String => x.2 ≤ y.2) things).map Prod.fst)

def sort_map_entries_list : List (String × CatNode) → List (String × CatNode)
  | [] => []
  | (t, n) :: rest => (t, sort_map_entries n) :: sort_map_entries_list rest
end

/-- `_DISCUSSIONINFO` once populated: `{'id_map': ..., 'category_map': ...}`. -/
structure DiscussionInfo where
  id_map : List (String × IdMapEntry)
  category_map : CatNode

structure Course where
  id : String

/-- The body of `initialize_discussion_info` once it decides to rebuild. -/
def build_discussion_info (all_modules : List (Location × CourseModule)) : DiscussionInfo :=
  let maps := discussion_maps all_modules
  ⟨maps.1, sort_map_entries (build_category_map maps.2)⟩

/-- `initialize_discussion_info(course)`: the module-level `_DISCUSSIONINFO` global is
threaded as explicit state (`Option.none` when unset).  When the cache is already
populated (a non-empty dict, which is truthy) the function returns immediately;
`get_full_modules()[course.id]` supplies the course's modules otherwise. -/
def initialize_discussion_info
    (get_full_modules : String → List (Location × CourseModule))
    (state : Option DiscussionInfo) (course : Course) : Option DiscussionInfo :=
  match state with
  | some _ => state
  | Option.none => some (build_discussion_info (get_full_modules course.id))

/-- `get_discussion_id_map(course)`: initialize the cache when unset, then return its
`id_map`; the pair is (new cache state, returned value). -/
def get_discussion_id_map (get_full_modules : String → List (Location × CourseModule))
    (state : Option DiscussionInfo) (course : Course) :
    Option DiscussionInfo × List (String × IdMapEntry) :=
  let state' := if state.isNone
    then initialize_discussion_info get_full_modules state course else state
  (state', state'.elim [] DiscussionInfo.id_map)

/-- `get_discussion_title(request, course, discussion_id)`: the `request` argument is
unused in the source body and omitted. -/
def get_discussion_title (get_full_modules : String → List (Location × CourseModule))
    (state : Option DiscussionInfo) (course : Course) (discussion_id : String) :
    Option DiscussionInfo × String :=
  let state' := if state.isNone
    then initialize_discussion_info get_full_modules state course else state
  (state', (dlookup (state'.elim [] DiscussionInfo.id_map) discussion_id).elim
    "(no title)" IdMapEntry.title)

/-- `get_discussion_category_map(course)`. -/
def get_discussion_category_map
    (get_full_modules : String → List (Location × CourseModule))
    (state : Option DiscussionInfo) (course : Course) :
    Option DiscussionInfo × Option CatNode :=
  let state' := if state.isNone
    then initialize_discussion_info get_full_modules state course else state
  (state', state'.map DiscussionInfo.category_map)

/-! ## Claim C9: the `_DISCUSSIONINFO` cache ignores the course argument -/

/-- C9: once the `_DISCUSSIONINFO` cache is populated (by any first call), every later
call to `get_discussion_id_map`, `get_discussion_title` or `get_discussion_category_map`
returns data from the cached info regardless of which course is passed, and
`initialize_discussion_info` returns immediately without rebuilding while the cache is
non-empty. -/
theorem discussion_cache_ignores_course
    (get_full_modules : String → List (Location × CourseModule))
    (info : DiscussionInfo) (c c' : Course) (discussion_id : String) :
    initialize_discussion_info get_full_modules (some info) c' = some info ∧
    get_discussion_id_map get_full_modules (some info) c' = (some info, info.id_map) ∧
    get_discussion_title get_full_modules (some info) c' discussion_id
      = (some info, (dlookup info.id_map discussion_id).elim "(no title)" IdMapEntry.title) ∧
    get_discussion_category_map get_full_modules (some info) c'
      = (some info, some info.category_map) ∧
    (get_discussion_id_map get_full_modules Option.none c).1
      = some (build_discussion_info (get_full_modules c.id)) ∧
    (get_discussion_title get_full_modules Option.none c discussion_id).1
      = some (build_discussion_info (get_full_modules c.id)) ∧
    (get_discussion_category_map get_full_modules Option.none c).1
      = some (build_discussion_info (get_full_modules c.id)) :=
  ⟨rfl, rfl, rfl, rfl, rfl, rfl, rfl⟩

/-! ## Claim C2: `sort_map_entries` -/

/-- The `(title, sort_key)` pairs of a node's entries and subcategories, in the order the
source builds its `things` list. -/
def childPairs (entries : List (String × MapEntry)) (subcats : List (String × CatNode)) :
    List (String × String) :=
  entries.map (fun p => (p.1, p.2.sort_key)) ++ subcats.map (fun p => (p.1, p.2.sort_key))

instance : IsTotal (String × String) (fun x y => x.2 ≤ y.2) :=
  ⟨fun a b => le_total a.2 b.2⟩

instance : IsTrans (String × String) (fun x y => x.2 ≤ y.2) :=
  ⟨fun _ _ _ h1 h2 => le_trans h1 h2⟩

mutual
/-- A node (and recursively its subcategories) whose `children` list holds exactly the
titles of its entries and subcategories, ordered by their `sort_key` values. -/
def SortedTree : CatNode → Prop
  | .mk entries subcats _ children =>
      (∃ l : List (String × String), children = l.map Prod.fst ∧
        l.Perm (childPairs entries subcats) ∧
        l.Pairwise (fun x y => x.2 ≤ y.2)) ∧
      SortedSubs subcats

def SortedSubs : List (String × CatNode) → Prop
  | [] => True
  | (_, n) :: rest => SortedTree n ∧ SortedSubs rest
end

mutual
theorem sortedTree_sort_aux : ∀ t, SortedTree (sort_map_entries t)
  | .mk entries subcats sk children => by
      rw [sort_map_entries, SortedTree]
      refine ⟨⟨List.insertionSort (fun x y : String × String => x.2 ≤ y.2)
        (childPairs entries (sort_map_entries_list subcats)), rfl, ?_, ?_⟩,
        sortedSubs_sort_aux subcats⟩
      · exact List.perm_insertionSort _ _
      · exact List.sorted_insertionSort _ _

theorem sortedSubs_sort_aux : ∀ l, SortedSubs (sort_map_entries_list l)
  | [] => trivial
  | (t, n) :: rest => by
      rw [sort_map_entries_list, SortedSubs]
      exact ⟨sortedTree_sort_aux n, sortedSubs_sort_aux rest⟩
end

/-- C2: after `sort_map_entries` runs on a category map, every node's `children` list
contains exactly the titles of that node's entries and subcategories, ordered by their
`sort_key` values, recursively down every subcategory. -/
theorem sort_map_entries_sorts_children (t : CatNode) : SortedTree (sort_map_entries t) :=
  sortedTree_sort_aux t

/-! ## Claim C1: string lemmas for `split` / `strip` / `join` -/

theorem pyRStrip_eq_rdropWhile (s : List Char) : pyRStrip s = List.rdropWhile isPyWS s := rfl

theorem pyLStrip_pyRStrip {t : List Char} (h : pyLStrip t = t) :
    pyLStrip (pyRStrip t) = pyRStrip t := by
  cases hr : pyRStrip t with
  | nil => rfl
  | cons c r =>
      obtain ⟨u, hu⟩ := List.rdropWhile_prefix isPyWS t
      rw [← pyRStrip_eq_rdropWhile, hr] at hu
      rw [← hu] at h
      cases hc : isPyWS c with
      | true =>
          rw [pyLStrip, List.cons_append, List.dropWhile_cons, hc, if_pos rfl] at h
          have hlen := congrArg List.length h
          have hle := (List.dropWhile_suffix (l := r ++ u) isPyWS).sublist.length_le
          simp [List.length_append] at hlen hle
          omega
      | false =>
          rw [pyLStrip, List.dropWhile_cons, hc]
          simp

theorem pyStrip_idem (s : List Char) : pyStrip (pyStrip s) = pyStrip s := by
  have h2 : pyLStrip (pyStrip s) = pyStrip s :=
    pyLStrip_pyRStrip (List.dropWhile_idempotent isPyWS (l := s))
  rw [pyStrip, h2]
  rw [show pyStrip s = pyRStrip (pyLStrip s) from rfl]
  rw [pyRStrip_eq_rdropWhile, pyRStrip_eq_rdropWhile, List.rdropWhile_idempotent]

theorem pyStrip_cons_ws {c : Char} (hc : isPyWS c = true) (s : List Char) :
    pyStrip (c :: s) = pyStrip s := by
  rw [pyStrip, pyStrip, pyLStrip, pyLStrip, List.dropWhile_cons, hc, if_pos rfl]

theorem pyLStrip_append (s t : List Char) :
    pyLStrip (s ++ t) = if (pyLStrip s).isEmpty then pyLStrip t else pyLStrip s ++ t := by
  induction s with
  | nil => simp [pyLStrip]
  | cons c s' ih =>
      cases hc : isPyWS c with
      | true =>
          rw [List.cons_append, pyLStrip, List.dropWhile_cons, hc, if_pos rfl, ← pyLStrip]
          rw [ih]
          rw [show pyLStrip (c :: s') = pyLStrip s' by
            rw [pyLStrip, pyLStrip, List.dropWhile_cons, hc, if_pos rfl]]
      | false =>
          rw [List.cons_append, pyLStrip, List.dropWhile_cons, hc]
          rw [show pyLStrip (c :: s') = c :: s' by
            rw [pyLStrip, List.dropWhile_cons, hc]; simp]
          simp

theorem pyStrip_append_ws {c : Char} (hc : isPyWS c = true) (s : List Char) :
    pyStrip (s ++ [c]) = pyStrip s := by
  rw [pyStrip, pyStrip, pyLStrip_append]
  cases he : (pyLStrip s).isEmpty with
  | true =>
      rw [if_pos rfl]
      rw [show pyLStrip [c] = [] by rw [pyLStrip, List.dropWhile_cons, hc]; simp]
      rw [List.isEmpty_iff] at he
      rw [he]
  | false =>
      simp only [Bool.false_eq_true, if_false]
      rw [pyRStrip_eq_rdropWhile, pyRStrip_eq_rdropWhile]
      exact List.rdropWhile_concat_pos isPyWS (pyLStrip s) c hc

theorem mem_pyStrip {a : Char} {s : List Char} (h : a ∈ pyStrip s) : a ∈ s := by
  rw [pyStrip, pyRStrip_eq_rdropWhile] at h
  have h1 : a ∈ pyLStrip s := (List.rdropWhile_prefix isPyWS (pyLStrip s)).subset h
  rw [pyLStrip] at h1
  exact (List.dropWhile_suffix isPyWS).subset h1

theorem pySplitChar_ne_nil (sep : Char) : ∀ (s : List Char), pySplitChar sep s ≠ []
  | [] => by simp [pySplitChar]
  | c :: cs => by
      by_cases hc : c = sep
      · simp [pySplitChar, hc]
      · rw [pySplitChar, if_neg hc]
        cases h : pySplitChar sep cs with
        | nil => simp
        | cons a t => simp

theorem pySplitChar_no_sep (sep : Char) :
    ∀ (s : List Char), sep ∉ s → pySplitChar sep s = [s]
  | [], _ => rfl
  | c :: cs, h => by
      rw [List.mem_cons] at h
      push_neg at h
      rw [pySplitChar, if_neg (Ne.symm h.1), pySplitChar_no_sep sep cs h.2]

theorem pySplitChar_append_sep (sep : Char) :
    ∀ (a b : List Char), sep ∉ a →
      pySplitChar sep (a ++ sep :: b) = a :: pySplitChar sep b
  | [], b, _ => by
      rw [List.nil_append, pySplitChar, if_pos rfl]
  | c :: a', b, h => by
      rw [List.mem_cons] at h
      push_neg at h
      rw [List.cons_append, pySplitChar, if_neg (Ne.symm h.1),
        pySplitChar_append_sep sep a' b h.2]

theorem not_mem_of_mem_pySplitChar (sep : Char) :
    ∀ (s : List Char) (piece : List Char), piece ∈ pySplitChar sep s → sep ∉ piece
  | [], piece, h => by
      rw [show pySplitChar sep ([] : List Char) = [[]] from rfl] at h
      rw [List.mem_singleton] at h
      subst h
      exact List.not_mem_nil sep
  | c :: cs, piece, h => by
      by_cases hc : c = sep
      · rw [pySplitChar, if_pos hc] at h
        rcases List.mem_cons.mp h with h | h
        · subst h
          exact List.not_mem_nil sep
        · exact not_mem_of_mem_pySplitChar sep cs piece h
      · rw [pySplitChar, if_neg hc] at h
        cases hs : pySplitChar sep cs with
        | nil => exact absurd hs (pySplitChar_ne_nil sep cs)
        | cons a t =>
            rw [hs] at h
            rcases List.mem_cons.mp h with h | h
            · subst h
              intro hmem
              rcases List.mem_cons.mp hmem with hmem | hmem
              · exact hc hmem.symm
              · exact not_mem_of_mem_pySplitChar sep cs a (hs ▸ List.mem_cons_self a t) hmem
            · exact not_mem_of_mem_pySplitChar sep cs piece
                (hs ▸ List.mem_cons_of_mem a h)

theorem pySplit_pyJoin :
    ∀ (segs : List (List Char)), segs ≠ [] →
      (∀ x ∈ segs, '/' ∉ x) → (∀ x ∈ segs, pyStrip x = x) →
      (pySplitChar '/' (pyJoin [' ', '/', ' '] segs)).map pyStrip = segs
  | [], h, _, _ => absurd rfl h
  | [s], _, hns, hst => by
      rw [show pyJoin [' ', '/', ' '] [s] = s from rfl]
      rw [pySplitChar_no_sep '/' s (hns s (by simp))]
      rw [List.map_singleton, hst s (by simp)]
  | s :: s2 :: rest, _, hns, hst => by
      rw [show pyJoin [' ', '/', ' '] (s :: s2 :: rest)
            = (s ++ [' ']) ++ '/' :: (' ' :: pyJoin [' ', '/', ' '] (s2 :: rest)) by
        rw [show pyJoin [' ', '/', ' '] (s :: s2 :: rest)
              = s ++ [' ', '/', ' '] ++ pyJoin [' ', '/', ' '] (s2 :: rest) from rfl]
        simp]
      rw [pySplitChar_append_sep '/' (s ++ [' ']) _ (by
        intro hmem
        rcases List.mem_append.mp hmem with hmem | hmem
        · exact hns s (by simp) hmem
        · simp at hmem)]
      have hjoin := pySplit_pyJoin (s2 :: rest) (List.cons_ne_nil s2 rest)
        (fun x hx => hns x (List.mem_cons_of_mem s hx))
        (fun x hx => hst x (List.mem_cons_of_mem s hx))
      cases hX : pySplitChar '/' (pyJoin [' ', '/', ' '] (s2 :: rest)) with
      | nil => exact absurd hX (pySplitChar_ne_nil '/' _)
      | cons h t =>
          rw [show pySplitChar '/' (' ' :: pyJoin [' ', '/', ' '] (s2 :: rest))
                = (' ' :: h) :: t by
            rw [pySplitChar, if_neg (by decide), hX]]
          rw [hX, List.map_cons] at hjoin
          rw [List.map_cons, List.map_cons]
          rw [pyStrip_append_ws (by decide) s, hst s (by simp)]
          rw [pyStrip_cons_ws (by decide) h]
          rw [List.cons.injEq] at hjoin
          rw [hjoin.1, hjoin.2]

/-! ## Claim C1: category-map path lemmas -/

theorem splitPath_normalize (c : String) : splitPath (normalizeCategory c) = splitPath c := by
  rw [normalizeCategory, splitPath, splitPath]
  rw [show (String.mk (pyJoin [' ', '/', ' ']
        ((pySplitChar '/' c.toList).map pyStrip))).toList
      = pyJoin [' ', '/', ' '] ((pySplitChar '/' c.toList).map pyStrip) from rfl]
  rw [pySplit_pyJoin ((pySplitChar '/' c.toList).map pyStrip)
    (fun h => pySplitChar_ne_nil '/' c.toList (List.map_eq_nil.mp h))
    (fun x hx => by
      rcases List.mem_map.mp hx with ⟨y, hy, hye⟩
      intro hmem
      exact not_mem_of_mem_pySplitChar '/' c.toList y hy (mem_pyStrip (hye ▸ hmem)))
    (fun x hx => by
      rcases List.mem_map.mp hx with ⟨y, hy, hye⟩
      rw [← hye, pyStrip_idem])]

theorem map_mk_toList (L : List (List Char)) :
    (L.map (fun l => (⟨l⟩ : String))).map String.toList = L := by
  rw [List.map_map]
  induction L with
  | nil => rfl
  | cons x xs ih =>
      rw [List.map_cons, ih]
      rfl

theorem normalizeCategory_inj {c1 c2 : String}
    (h : splitPath (normalizeCategory c1) = splitPath (normalizeCategory c2)) :
    normalizeCategory c1 = normalizeCategory c2 := by
  rw [splitPath_normalize, splitPath_normalize] at h
  rw [splitPath, splitPath] at h
  have h2 := congrArg (List.map String.toList) h
  rw [map_mk_toList, map_mk_toList] at h2
  rw [normalizeCategory, normalizeCategory, h2]

theorem splitPath_ne_nil (s : String) : splitPath s ≠ [] := by
  rw [splitPath]
  intro h
  rw [List.map_eq_nil, List.map_eq_nil] at h
  exact pySplitChar_ne_nil '/' s.toList h

/-- Follow `path` through a `subcategories` dict down to the addressed node. -/
def pathLookupSub (subcats : List (String × CatNode)) : List String → Option CatNode
  | [] => Option.none
  | [level] => dlookup subcats level
  | level :: rest =>
      match dlookup subcats level with
      | some n => pathLookupSub n.subcategories rest
      | Option.none => Option.none

/-- The `entries` dict of the node addressed by `path` (empty when the node is absent). -/
def entriesAt (subcats : List (String × CatNode)) (path : List String) :
    List (String × MapEntry) :=
  (pathLookupSub subcats path).elim [] CatNode.entries

theorem pathLookupSub_nil_subcats : ∀ (path : List String),
    pathLookupSub [] path = Option.none
  | [] => rfl
  | [_] => rfl
  | _ :: _ :: _ => rfl

theorem insertGroup_entriesAt_self :
    ∀ (path : List String) (sc : List (String × CatNode)) (es : List UnexpEntry),
      path ≠ [] →
      entriesAt (insertGroup sc path es) path
        = dfold UnexpEntry.title (fun e => MapEntry.mk e.id e.sort_key)
            (entriesAt sc path) es
  | [], _, _, h => absurd rfl h
  | [level], sc, es, _ => by
      simp only [insertGroup]
      cases hl : dlookup sc level with
      | some m =>
          simp only [hl, Option.getD_some, entriesAt, pathLookupSub, dlookup_dinsert_self,
            Option.elim_some, CatNode.entries]
      | none =>
          simp only [hl, Option.getD_none, entriesAt, pathLookupSub, dlookup_dinsert_self,
            Option.elim_some, Option.elim_none, CatNode.entries, emptyCatNode]
  | level :: l2 :: rest, sc, es, _ => by
      simp only [insertGroup]
      have ihne : (l2 :: rest : List String) ≠ [] := List.cons_ne_nil l2 rest
      cases hl : dlookup sc level with
      | some m =>
          simp only [hl, Option.getD_some, entriesAt, pathLookupSub, dlookup_dinsert_self,
            CatNode.subcategories]
          have ih := insertGroup_entriesAt_self (l2 :: rest) m.subcategories es ihne
          simp only [entriesAt] at ih
          exact ih
      | none =>
          simp only [hl, Option.getD_none, entriesAt, pathLookupSub, dlookup_dinsert_self,
            CatNode.subcategories, emptyCatNode, Option.elim_none]
          have ih := insertGroup_entriesAt_self (l2 :: rest) [] es ihne
          simp only [entriesAt, pathLookupSub_nil_subcats, Option.elim_none] at ih
          exact ih

theorem insertGroup_entriesAt_other :
    ∀ (path' path : List String) (sc : List (String × CatNode)) (es : List UnexpEntry),
      path ≠ [] → path' ≠ [] → path ≠ path' →
      entriesAt (insertGroup sc path' es) path = entriesAt sc path
  | [], _, _, _, _, h', _ => absurd rfl h'
  | [l'], path, sc, es, hp, _, hne => by
      cases path with
      | nil => exact absurd rfl hp
      | cons l p2 =>
          cases p2 with
          | nil =>
              have hll : l ≠ l' := fun he => hne (by rw [he])
              simp only [insertGroup, entriesAt, pathLookupSub]
              rw [dlookup_dinsert_ne _ _ _ _ (Ne.symm hll)]
          | cons l2 r =>
              by_cases hll : l = l'
              · subst hll
                simp only [insertGroup, entriesAt, pathLookupSub, dlookup_dinsert_self]
                cases hlk : dlookup sc l with
                | some m =>
                    simp only [Option.getD_some, CatNode.subcategories, Option.elim_some]
                | none =>
                    simp only [Option.getD_none, emptyCatNode, CatNode.subcategories,
                      pathLookupSub_nil_subcats, Option.elim_none, Option.elim_some]
              · simp only [insertGroup, entriesAt, pathLookupSub]
                rw [dlookup_dinsert_ne _ _ _ _ (Ne.symm hll)]
  | l' :: l2' :: r', path, sc, es, hp, _, hne => by
      cases path with
      | nil => exact absurd rfl hp
      | cons l p2 =>
          by_cases hll : l = l'
          · subst hll
            cases p2 with
            | nil =>
                simp only [insertGroup, entriesAt, pathLookupSub, dlookup_dinsert_self]
                cases hlk : dlookup sc l with
                | some m =>
                    simp only [Option.getD_some, CatNode.entries, Option.elim_some]
                | none =>
                    simp only [Option.getD_none, emptyCatNode, CatNode.entries,
                      Option.elim_some, Option.elim_none]
            | cons l2 r =>
                have htne : (l2 :: r : List String) ≠ (l2' :: r') :=
                  fun he => hne (by rw [he])
                simp only [insertGroup, entriesAt, pathLookupSub, dlookup_dinsert_self]
                cases hlk : dlookup sc l with
                | some m =>
                    simp only [Option.getD_some, CatNode.subcategories]
                    have ih := insertGroup_entriesAt_other (l2' :: r') (l2 :: r)
                      m.subcategories es (List.cons_ne_nil l2 r) (List.cons_ne_nil l2' r')
                      htne
                    simp only [entriesAt] at ih
                    exact ih
                | none =>
                    simp only [Option.getD_none, emptyCatNode, CatNode.subcategories,
                      pathLookupSub_nil_subcats, Option.elim_none]
                    have ih := insertGroup_entriesAt_other (l2' :: r') (l2 :: r) [] es
                      (List.cons_ne_nil l2 r) (List.cons_ne_nil l2' r') htne
                    simp only [entriesAt, pathLookupSub_nil_subcats, Option.elim_none] at ih
                    exact ih
          · cases p2 with
            | nil =>
                simp only [insertGroup, entriesAt, pathLookupSub]
                rw [dlookup_dinsert_ne _ _ _ _ (Ne.symm hll)]
            | cons l2 r =>
                simp only [insertGroup, entriesAt, pathLookupSub]
                rw [dlookup_dinsert_ne _ _ _ _ (Ne.symm hll)]

theorem paths_ne_of_keys_ne {k1 k2 : String} (h1 : ∃ c, k1 = normalizeCategory c)
    (h2 : ∃ c, k2 = normalizeCategory c) (hne : k1 ≠ k2) :
    splitPath k1 ≠ splitPath k2 := by
  obtain ⟨c1, rfl⟩ := h1
  obtain ⟨c2, rfl⟩ := h2
  exact fun he => hne (normalizeCategory_inj he)

theorem fold_preserve_entriesAt :
    ∀ (groups : List (String × List UnexpEntry)) (sc : List (String × CatNode))
      (path : List String), path ≠ [] →
      (∀ g ∈ groups, splitPath g.1 ≠ path) →
      entriesAt (groups.foldl (fun sc g => insertGroup sc (splitPath g.1) g.2) sc) path
        = entriesAt sc path
  | [], _, _, _, _ => rfl
  | g :: rest, sc, path, hp, hne => by
      rw [show (g :: rest).foldl (fun sc g => insertGroup sc (splitPath g.1) g.2) sc
            = rest.foldl (fun sc g => insertGroup sc (splitPath g.1) g.2)
                (insertGroup sc (splitPath g.1) g.2) from rfl]
      rw [fold_preserve_entriesAt rest _ path hp
        (fun g' hg' => hne g' (List.mem_cons_of_mem g hg'))]
      exact insertGroup_entriesAt_other (splitPath g.1) path sc g.2 hp
        (splitPath_ne_nil g.1) (Ne.symm (hne g (List.mem_cons_self g rest)))

theorem build_entriesAt :
    ∀ (groups : List (String × List UnexpEntry)) (sc : List (String × CatNode)),
      (groups.map Prod.fst).Nodup →
      (∀ a ∈ groups.map Prod.fst, ∃ c, a = normalizeCategory c) →
      ∀ key gl, (key, gl) ∈ groups →
        entriesAt (groups.foldl (fun sc g => insertGroup sc (splitPath g.1) g.2) sc)
            (splitPath key)
          = dfold UnexpEntry.title (fun e => MapEntry.mk e.id e.sort_key)
              (entriesAt sc (splitPath key)) gl
  | [], _, _, _, key, gl, hmem => absurd hmem (List.not_mem_nil _)
  | (k0, gl0) :: rest, sc, hnd, himg, key, gl, hmem => by
      rw [List.map_cons, List.nodup_cons] at hnd
      rw [show ((k0, gl0) :: rest).foldl (fun sc g => insertGroup sc (splitPath g.1) g.2) sc
            = rest.foldl (fun sc g => insertGroup sc (splitPath g.1) g.2)
                (insertGroup sc (splitPath k0) gl0) from rfl]
      rcases List.mem_cons.mp hmem with hmem | hmem
      · rw [Prod.mk.injEq] at hmem
        obtain ⟨rfl, rfl⟩ := hmem
        rw [fold_preserve_entriesAt rest _ (splitPath key) (splitPath_ne_nil key)
          (fun g hg => paths_ne_of_keys_ne
            (himg g.1 (by
              rw [List.map_cons]
              exact List.mem_cons_of_mem _ (List.mem_map.mpr ⟨g, hg, rfl⟩)))
            (himg key (by rw [List.map_cons]; exact List.mem_cons_self _ _))
            (fun he => hnd.1 (he ▸ List.mem_map.mpr ⟨g, hg, rfl⟩)))]
        exact insertGroup_entriesAt_self (splitPath key) sc gl (splitPath_ne_nil key)
      · have hkey : key ∈ rest.map Prod.fst := List.mem_map.mpr ⟨(key, gl), hmem, rfl⟩
        rw [build_entriesAt rest _ hnd.2
          (fun a ha => himg a (by rw [List.map_cons]; exact List.mem_cons_of_mem _ ha))
          key gl hmem]
        rw [insertGroup_entriesAt_other (splitPath k0) (splitPath key) sc gl0
          (splitPath_ne_nil key) (splitPath_ne_nil k0)
          (paths_ne_of_keys_ne
            (himg key (by rw [List.map_cons]; exact List.mem_cons_of_mem _ hkey))
            (himg k0 (by rw [List.map_cons]; exact List.mem_cons_self _ _))
            (fun he => hnd.1 (he ▸ hkey)))]

theorem dlookup_dappend_self {α : Type} (d : List (String × List α)) (k : String) (v : α) :
    dlookup (dappend d k v) k = some (((dlookup d k).getD []) ++ [v]) := by
  rw [dappend]
  exact dlookup_dinsert_self _ _ _

theorem dlookup_dappend_ne {α : Type} (d : List (String × List α)) (k k' : String) (v : α)
    (h : k ≠ k') : dlookup (dappend d k v) k' = dlookup d k' := by
  rw [dappend]
  exact dlookup_dinsert_ne _ _ _ _ h

theorem group_fold_some {ι α : Type} (keyf : ι → String) (valf : ι → α) :
    ∀ (items : List ι) (acc : List (String × List α)) (k : String) (g0 : List α),
      dlookup acc k = some g0 →
      dlookup (items.foldl (fun d x => dappend d (keyf x) (valf x)) acc) k
        = some (g0 ++ (items.filter (fun x => keyf x = k)).map valf)
  | [], _, _, _, h => by simpa using h
  | x :: rest, acc, k, g0, h => by
      rw [show (x :: rest).foldl (fun d x => dappend d (keyf x) (valf x)) acc
            = rest.foldl (fun d x => dappend d (keyf x) (valf x))
                (dappend acc (keyf x) (valf x)) from rfl]
      by_cases hk : keyf x = k
      · subst hk
        have hstep : dlookup (dappend acc (keyf x) (valf x)) (keyf x)
            = some (g0 ++ [valf x]) := by
          rw [dlookup_dappend_self, h]
          rfl
        rw [group_fold_some keyf valf rest _ (keyf x) (g0 ++ [valf x]) hstep]
        simp [List.filter_cons, List.append_assoc]
      · have hstep : dlookup (dappend acc (keyf x) (valf x)) k = some g0 := by
          rw [dlookup_dappend_ne _ _ _ _ hk]
          exact h
        rw [group_fold_some keyf valf rest _ k g0 hstep]
        simp [List.filter_cons, hk]

theorem group_fold_from_none {ι α : Type} (keyf : ι → String) (valf : ι → α) :
    ∀ (items : List ι) (acc : List (String × List α)) (k : String),
      dlookup acc k = Option.none →
      (items.filter (fun x => keyf x = k)) ≠ [] →
      dlookup (items.foldl (fun d x => dappend d (keyf x) (valf x)) acc) k
        = some ((items.filter (fun x => keyf x = k)).map valf)
  | [], _, _, _, hne => absurd rfl hne
  | x :: rest, acc, k, h, hne => by
      rw [show (x :: rest).foldl (fun d x => dappend d (keyf x) (valf x)) acc
            = rest.foldl (fun d x => dappend d (keyf x) (valf x))
                (dappend acc (keyf x) (valf x)) from rfl]
      by_cases hk : keyf x = k
      · subst hk
        have hstep : dlookup (dappend acc (keyf x) (valf x)) (keyf x) = some [valf x] := by
          rw [dlookup_dappend_self, h]
          rfl
        rw [group_fold_some keyf valf rest _ (keyf x) [valf x] hstep]
        simp [List.filter_cons]
      · have hstep : dlookup (dappend acc (keyf x) (valf x)) k = Option.none := by
          rw [dlookup_dappend_ne _ _ _ _ hk]
          exact h
        have hne' : rest.filter (fun y => keyf y = k) ≠ [] := by
          intro hf
          apply hne
          simp [List.filter_cons, hk, hf]
        rw [group_fold_from_none keyf valf rest _ k hstep hne']
        simp [List.filter_cons, hk]

theorem mem_keys_group_fold {ι α : Type} (keyf : ι → String) (valf : ι → α) {a : String} :
    ∀ (items : List ι) (acc : List (String × List α)),
      a ∈ (items.foldl (fun d x => dappend d (keyf x) (valf x)) acc).map Prod.fst →
      a ∈ acc.map Prod.fst ∨ a ∈ items.map keyf
  | [], _, h => Or.inl h
  | x :: rest, acc, h => by
      rcases mem_keys_group_fold keyf valf rest (dappend acc (keyf x) (valf x)) h with h' | h'
      · rw [dappend] at h'
        rcases mem_keys_dinsert h' with h'' | h''
        · exact Or.inl h''
        · exact Or.inr (by simp [h''])
      · exact Or.inr (List.mem_cons_of_mem _ h')

theorem nodup_keys_group_fold {ι α : Type} (keyf : ι → String) (valf : ι → α) :
    ∀ (items : List ι) (acc : List (String × List α)),
      (acc.map Prod.fst).Nodup →
      ((items.foldl (fun d x => dappend d (keyf x) (valf x)) acc).map Prod.fst).Nodup
  | [], _, h => h
  | x :: rest, acc, h =>
      nodup_keys_group_fold keyf valf rest (dappend acc (keyf x) (valf x))
        (nodup_keys_dinsert h)

theorem sort_map_entries_list_eq_map : ∀ (l : List (String × CatNode)),
    sort_map_entries_list l = l.map (fun p => (p.1, sort_map_entries p.2))
  | [] => rfl
  | (t, n) :: rest => by
      rw [sort_map_entries_list, List.map_cons, sort_map_entries_list_eq_map rest]

theorem dlookup_map_values {α β : Type} (f : α → β) : ∀ (l : List (String × α)) (k : String),
    dlookup (l.map (fun p => (p.1, f p.2))) k = (dlookup l k).map f
  | [], _ => rfl
  | (k', v) :: rest, k => by
      by_cases h : k' = k
      · simp [dlookup, h]
      · simp [dlookup, h, dlookup_map_values f rest k]

theorem sort_entries_eq (n : CatNode) : (sort_map_entries n).entries = n.entries := by
  cases n
  rw [sort_map_entries]
  rfl

theorem sort_subcats_eq (n : CatNode) :
    (sort_map_entries n).subcategories = sort_map_entries_list n.subcategories := by
  cases n
  rw [sort_map_entries]
  rfl

theorem entriesAt_sort : ∀ (path : List String) (sc : List (String × CatNode)),
    entriesAt (sort_map_entries_list sc) path = entriesAt sc path
  | [], _ => rfl
  | [l], sc => by
      cases h : dlookup sc l with
      | none =>
          simp [entriesAt, pathLookupSub, sort_map_entries_list_eq_map, dlookup_map_values, h]
      | some n =>
          simp [entriesAt, pathLookupSub, sort_map_entries_list_eq_map, dlookup_map_values,
            h, sort_entries_eq]
  | l :: l2 :: r, sc => by
      cases h : dlookup sc l with
      | none =>
          simp [entriesAt, pathLookupSub, sort_map_entries_list_eq_map, dlookup_map_values, h]
      | some n =>
          simp only [entriesAt, pathLookupSub, sort_map_entries_list_eq_map,
            dlookup_map_values, h, Option.map_some']
          rw [sort_subcats_eq, sort_map_entries_list_eq_map]
          have ih := entriesAt_sort (l2 :: r) n.subcategories
          simp only [entriesAt, sort_map_entries_list_eq_map] at ih
          exact ih

theorem discussion_maps_aux (all : List (Location × CourseModule)) :
    ∀ (m : List (String × IdMapEntry) × List (String × List UnexpEntry)),
      all.foldl
        (fun maps lm =>
          if lm.1.category = "discussion" then
            (dinsert maps.1 lm.2.metadata.id ⟨lm.1, lm.2.metadata.«for»⟩,
             dappend maps.2 (normalizeCategory lm.2.metadata.discussion_category)
               ⟨lm.2.metadata.«for», lm.2.metadata.id,
                lm.2.metadata.sort_key.getD lm.2.metadata.«for»⟩)
          else maps) m
      = ((all.filter (fun lm => lm.1.category = "discussion")).foldl
            (fun d lm => dinsert d lm.2.metadata.id ⟨lm.1, lm.2.metadata.«for»⟩) m.1,
         (all.filter (fun lm => lm.1.category = "discussion")).foldl
            (fun d lm => dappend d (normalizeCategory lm.2.metadata.discussion_category)
              ⟨lm.2.metadata.«for», lm.2.metadata.id,
               lm.2.metadata.sort_key.getD lm.2.metadata.«for»⟩) m.2) := by
  induction all with
  | nil => intro m; rfl
  | cons lm rest ih =>
      intro m
      rw [List.foldl_cons, ih]
      by_cases hcat : lm.1.category = "discussion"
      · simp [List.filter_cons, hcat]
      · simp [List.filter_cons, hcat]

theorem discussion_maps_spec (all : List (Location × CourseModule)) :
    discussion_maps all
      = ((all.filter (fun lm => lm.1.category = "discussion")).foldl
            (fun d lm => dinsert d lm.2.metadata.id ⟨lm.1, lm.2.metadata.«for»⟩) [],
         (all.filter (fun lm => lm.1.category = "discussion")).foldl
            (fun d lm => dappend d (normalizeCategory lm.2.metadata.discussion_category)
              ⟨lm.2.metadata.«for», lm.2.metadata.id,
               lm.2.metadata.sort_key.getD lm.2.metadata.«for»⟩) []) :=
  discussion_maps_aux all ([], [])

theorem entriesAt_nil_subcats (path : List String) : entriesAt [] path = [] := by
  rw [entriesAt, pathLookupSub_nil_subcats]
  rfl

/-- C1: for every course, `initialize_discussion_info` places each module whose location
category is `'discussion'` into the category map at the node reached by splitting the
module's `discussion_category` metadata on `'/'` and stripping whitespace from each
segment, recording under the module's `'for'` title an entry holding its `'id'` and its
`'sort_key'` (defaulting to the title when absent), and records the module in the id map
under its `'id'` with its location and title.  The hypotheses state that the course's
discussion modules have pairwise distinct ids and pairwise distinct
(normalized category, title) pairs, so no dict assignment overwrites another module's. -/
theorem initialize_discussion_info_matches_spec
    (get_full_modules : String → List (Location × CourseModule)) (course : Course)
    (hids : (((get_full_modules course.id).filter
        (fun lm => lm.1.category = "discussion")).map
        (fun lm => lm.2.metadata.id)).Nodup)
    (hcats : (((get_full_modules course.id).filter
        (fun lm => lm.1.category = "discussion")).map
        (fun lm => (normalizeCategory lm.2.metadata.discussion_category,
          lm.2.metadata.«for»))).Nodup) :
    ∃ info, initialize_discussion_info get_full_modules Option.none course = some info ∧
      ∀ lm ∈ get_full_modules course.id, lm.1.category = "discussion" →
        dlookup info.id_map lm.2.metadata.id = some ⟨lm.1, lm.2.metadata.«for»⟩ ∧
        dlookup (entriesAt info.category_map.subcategories
            (splitPath lm.2.metadata.discussion_category)) lm.2.metadata.«for»
          = some ⟨lm.2.metadata.id, lm.2.metadata.sort_key.getD lm.2.metadata.«for»⟩ := by
  refine ⟨build_discussion_info (get_full_modules course.id), rfl, fun lm hlm hcat => ?_⟩
  have hlmf : lm ∈ (get_full_modules course.id).filter
      (fun lm => lm.1.category = "discussion") :=
    List.mem_filter.mpr ⟨hlm, by simp [hcat]⟩
  constructor
  · rw [show (build_discussion_info (get_full_modules course.id)).id_map
        = (discussion_maps (get_full_modules course.id)).1 from rfl]
    rw [discussion_maps_spec]
    exact dfold_lookup_mem (fun lm : Location × CourseModule => lm.2.metadata.id)
      (fun lm => IdMapEntry.mk lm.1 lm.2.metadata.«for»)
      ((get_full_modules course.id).filter (fun lm => lm.1.category = "discussion")) []
      lm hlmf hids
  · have hsub : lm ∈ ((get_full_modules course.id).filter
        (fun lm => lm.1.category = "discussion")).filter
        (fun x => normalizeCategory x.2.metadata.discussion_category
          = normalizeCategory lm.2.metadata.discussion_category) :=
      List.mem_filter.mpr ⟨hlmf, by simp⟩
    have hgl := group_fold_from_none
      (fun x : Location × CourseModule => normalizeCategory x.2.metadata.discussion_category)
      (fun x => UnexpEntry.mk x.2.metadata.«for» x.2.metadata.id
        (x.2.metadata.sort_key.getD x.2.metadata.«for»))
      ((get_full_modules course.id).filter (fun lm => lm.1.category = "discussion")) []
      (normalizeCategory lm.2.metadata.discussion_category) rfl
      (List.ne_nil_of_mem hsub)
    have hmemg := dlookup_mem hgl
    have hgnd := nodup_keys_group_fold
      (fun x : Location × CourseModule => normalizeCategory x.2.metadata.discussion_category)
      (fun x => UnexpEntry.mk x.2.metadata.«for» x.2.metadata.id
        (x.2.metadata.sort_key.getD x.2.metadata.«for»))
      ((get_full_modules course.id).filter (fun lm => lm.1.category = "discussion")) []
      (by simp)
    have himg : ∀ a ∈ (((get_full_modules course.id).filter
        (fun lm => lm.1.category = "discussion")).foldl
          (fun d x => dappend d (normalizeCategory x.2.metadata.discussion_category)
            (UnexpEntry.mk x.2.metadata.«for» x.2.metadata.id
              (x.2.metadata.sort_key.getD x.2.metadata.«for»))) []).map Prod.fst,
        ∃ c, a = normalizeCategory c := by
      intro a ha
      rcases mem_keys_group_fold
        (fun x : Location × CourseModule => normalizeCategory x.2.metadata.discussion_category)
        (fun x => UnexpEntry.mk x.2.metadata.«for» x.2.metadata.id
          (x.2.metadata.sort_key.getD x.2.metadata.«for»)) _ _ ha with h | h
      · simp at h
      · rcases List.mem_map.mp h with ⟨x, _, hxe⟩
        exact ⟨x.2.metadata.discussion_category, hxe.symm⟩
    have hbuilt := build_entriesAt _ [] hgnd himg
      (normalizeCategory lm.2.metadata.discussion_category) _ hmemg
    rw [entriesAt_nil_subcats, splitPath_normalize] at hbuilt
    have hchain : entriesAt
        (build_discussion_info (get_full_modules course.id)).category_map.subcategories
        (splitPath lm.2.metadata.discussion_category)
      = entriesAt ((discussion_maps (get_full_modules course.id)).2.foldl
          (fun sc g => insertGroup sc (splitPath g.1) g.2) [])
        (splitPath lm.2.metadata.discussion_category) := by
      rw [show (build_discussion_info (get_full_modules course.id)).category_map
          = sort_map_entries (build_category_map
              (discussion_maps (get_full_modules course.id)).2) from rfl]
      rw [sort_subcats_eq]
      rw [show (build_category_map (discussion_maps (get_full_modules course.id)).2).subcategories
          = (discussion_maps (get_full_modules course.id)).2.foldl
              (fun sc g => insertGroup sc (splitPath g.1) g.2) [] from rfl]
      exact entriesAt_sort _ _
    rw [hchain]
    rw [show (discussion_maps (get_full_modules course.id)).2
        = ((get_full_modules course.id).filter
            (fun lm => lm.1.category = "discussion")).foldl
            (fun d x => dappend d (normalizeCategory x.2.metadata.discussion_category)
              (UnexpEntry.mk x.2.metadata.«for» x.2.metadata.id
                (x.2.metadata.sort_key.getD x.2.metadata.«for»))) [] by
      rw [discussion_maps_spec]]
    rw [hbuilt]
    have hx0 : (UnexpEntry.mk lm.2.metadata.«for» lm.2.metadata.id
        (lm.2.metadata.sort_key.getD lm.2.metadata.«for»))
        ∈ ((((get_full_modules course.id).filter
            (fun lm => lm.1.category = "discussion")).filter
            (fun x => normalizeCategory x.2.metadata.discussion_category
              = normalizeCategory lm.2.metadata.discussion_category)).map
          (fun x => UnexpEntry.mk x.2.metadata.«for» x.2.metadata.id
            (x.2.metadata.sort_key.getD x.2.metadata.«for»))) :=
      List.mem_map.mpr ⟨lm, hsub, rfl⟩
    have htnd : (((((get_full_modules course.id).filter
          (fun lm => lm.1.category = "discussion")).filter
          (fun x => normalizeCategory x.2.metadata.discussion_category
            = normalizeCategory lm.2.metadata.discussion_category)).map
        (fun x => UnexpEntry.mk x.2.metadata.«for» x.2.metadata.id
          (x.2.metadata.sort_key.getD x.2.metadata.«for»))).map UnexpEntry.title).Nodup := by
      rw [List.map_map]
      have hpairnd : ((((get_full_modules course.id).filter
          (fun lm => lm.1.category = "discussion")).filter
          (fun x => normalizeCategory x.2.metadata.discussion_category
            = normalizeCategory lm.2.metadata.discussion_category)).map
          (fun x => (normalizeCategory x.2.metadata.discussion_category,
            x.2.metadata.«for»))).Nodup :=
        hcats.sublist ((List.filter_sublist _).map _)
      have hfix : (((get_full_modules course.id).filter
          (fun lm => lm.1.category = "discussion")).filter
          (fun x => normalizeCategory x.2.metadata.discussion_category
            = normalizeCategory lm.2.metadata.discussion_category)).map
          (fun x => (normalizeCategory x.2.metadata.discussion_category,
            x.2.metadata.«for»))
          = (((get_full_modules course.id).filter
            (fun lm => lm.1.category = "discussion")).filter
            (fun x => normalizeCategory x.2.metadata.discussion_category
              = normalizeCategory lm.2.metadata.discussion_category)).map
            ((fun t => (normalizeCategory lm.2.metadata.discussion_category, t))
              ∘ (fun x => x.2.metadata.«for»)) := by
        apply List.map_congr_left
        intro x hx
        have := (List.mem_filter.mp hx).2
        simp only [decide_eq_true_eq] at this
        rw [Function.comp]
        rw [this]
      rw [hfix, ← List.map_map] at hpairnd
      exact List.Nodup.of_map _ hpairnd
    have := dfold_lookup_mem UnexpEntry.title
      (fun e => MapEntry.mk e.id e.sort_key) _ []
      (UnexpEntry.mk lm.2.metadata.«for» lm.2.metadata.id
        (lm.2.metadata.sort_key.getD lm.2.metadata.«for»)) hx0 htnd
    exact this

def modsEx : String → List (Location × CourseModule) := fun _ =>
  [(⟨"discussion", "d1"⟩, ⟨⟨"id1", "Week 1 / Homework", "Title A", some "k1"⟩⟩),
   (⟨"html", "h1"⟩, ⟨⟨"idX", "Z", "T", Option.none⟩⟩),
   (⟨"discussion", "d2"⟩, ⟨⟨"id2", "Week 1", "Title B", Option.none⟩⟩)]

theorem initialize_discussion_info_matches_spec_witness :
    dlookup (build_discussion_info (modsEx "c1")).id_map "id1"
      = some ⟨⟨"discussion", "d1"⟩, "Title A"⟩ ∧
    dlookup (entriesAt (build_discussion_info (modsEx "c1")).category_map.subcategories
        (splitPath "Week 1 / Homework")) "Title A" = some ⟨"id1", "k1"⟩ := by
  obtain ⟨info, hinit, hmod⟩ := initialize_discussion_info_matches_spec modsEx ⟨"c1"⟩
    (by decide) (by decide)
  have h2 : initialize_discussion_info modsEx Option.none ⟨"c1"⟩
      = some (build_discussion_info (modsEx "c1")) := rfl
  have hinfo : info = build_discussion_info (modsEx "c1") :=
    (Option.some.inj (h2.symm.trans hinit)).symm
  subst hinfo
  exact hmod
    (⟨"discussion", "d1"⟩, ⟨⟨"id1", "Week 1 / Homework", "Title A", some "k1"⟩⟩)
    (by decide) rfl
